import Mathlib

/-!
Verification of termux-midi: sequence player, live command source, sequencer port source.

A shallow embedding of `src/midi_file.cpp` (`MidiPlayer`), `src/input.cpp`
(`InputHandler::processCommand`), `src/alsa_input.cpp` (`AlsaInput::inputLoop`),
`src/synth.cpp` (`Synthesizer`) and `src/audio.cpp` (`AudioOutput`).

The observable effect of the event sources is the list of calls they make on the
`Synthesizer` facade, in order.

Floating point.

`MidiPlayer::currentTime_` is a C++ `double` and the velocity handed to
`Synthesizer::noteOn` is a C++ `float`.  Both are modelled exactly, as IEEE-754
round-to-nearest-even arithmetic on scaled integers:

* `msPerSample = 1000.0 / 44100` is `6535836193916366 · 2^-58` (a 53-bit
  significand).  Every value the clock takes is obtained from `0.0` by adding
  products `samples * msPerSample` with `samples` an `int`, so it is an integer
  multiple of `2^-58` (or an infinity / NaN): the exact product or sum of
  multiples of `2^-58` is again such a multiple, and rounding it to 53
  significant bits keeps it one.  `Double.fin k` stands for `k · 2^-58`.
* `v / 127.0f` for an `int` `v` is `0` or has magnitude above `2^-7`, so it is an
  integer multiple of `2^-30`.  `F32.mk k` stands for `k · 2^-30`.
-/

set_option exponentiation.threshold 1100

namespace TermuxMidi

/-! ## Round-to-nearest-even on scaled integers -/

/-- Number of low bits that do not fit into `p` significant bits: the least `s`
with `n / 2^s < 2^p` (searched with `fuel` halving steps). -/
def excessBits (p : Nat) : Nat → Nat → Nat
  | 0, _ => 0
  | fuel + 1, n => if n < 2 ^ p then 0 else excessBits p fuel (n / 2) + 1

/-- The rational `a / b` rounded to `p` significant bits, nearest, ties to even.
The result is an integer; it is the IEEE rounding of `a / b` whenever
`a / b` is `0` or at least `2^(p-1)` (all `p` significant bits are integer bits). -/
def roundQuot (p a b : Nat) : Nat :=
  let s := excessBits p (a / b) (a / b)
  let d := b * 2 ^ s
  let q := a / d
  let r := a % d
  if 2 * r < d then q * 2 ^ s
  else if d < 2 * r then (q + 1) * 2 ^ s
  else if q % 2 = 0 then q * 2 ^ s
  else (q + 1) * 2 ^ s

/-- The natural number `n` rounded to `p` significant bits, nearest, ties to even. -/
def roundNat (p n : Nat) : Nat := roundQuot p n 1

/-- A number that needs no rounding at precision `p`: a multiple of its own unit
in the last place. -/
def Representable (p c : Nat) : Prop := 2 ^ excessBits p c c ∣ c

/-! ## binary64 on the grid `2^-58` -/

/-- The `double` values reachable by the playback clock.  `fin k` is `k · 2^-58`. -/
inductive Double where
  | fin (k : Int)
  | posInf
  | negInf
  | nan
  deriving DecidableEq, Repr

namespace Double

/-- Grid units per millisecond: `1.0` is `fin (2^58)`. -/
def unit : Nat := 2 ^ 58

/-- First magnitude (in grid units) that no longer is a finite `double`:
`2^1024`, i.e. `2^1082` grid units. -/
def overflowBound : Nat := 2 ^ 1082

/-- Rounds the exact value `z · 2^-58` to `double`. -/
def round (z : Int) : Double :=
  if 0 ≤ z then
    let r := roundNat 53 z.toNat
    if r < overflowBound then fin r else posInf
  else
    let r := roundNat 53 (-z).toNat
    if r < overflowBound then fin (-(r : Int)) else negInf

/-- IEEE addition `x + y`. -/
def add : Double → Double → Double
  | fin a, fin b => round (a + b)
  | nan, _ => nan
  | _, nan => nan
  | posInf, negInf => nan
  | negInf, posInf => nan
  | posInf, _ => posInf
  | _, posInf => posInf
  | negInf, _ => negInf
  | _, negInf => negInf

/-- IEEE product `(double)n * x` for an `int` `n` (every `int` is a `double`). -/
def scale (n : Int) : Double → Double
  | fin k => round (n * k)
  | nan => nan
  | posInf => if 0 < n then posInf else if n < 0 then negInf else nan
  | negInf => if 0 < n then negInf else if n < 0 then posInf else nan

/-- The comparison `(double)t <= x` for an `unsigned int` `t`. -/
def natLe (t : Nat) : Double → Bool
  | fin k => decide (((t * unit : Nat) : Int) ≤ k)
  | posInf => true
  | negInf => false
  | nan => false

/-- The quotient `1000.0 / sampleRate` as a `double`, for `sampleRate = 44100`. -/
def div1000 (sampleRate : Nat) : Double :=
  fin (roundQuot 53 (1000 * unit) sampleRate)

/-- The exact value of a finite `double`, in milliseconds. -/
def toRat : Double → Option ℚ
  | fin k => some ((k : ℚ) / (unit : ℚ))
  | _ => none

end Double

/-! ## binary32 on the grid `2^-30` -/

/-- The `float` values `v / 127.0f`.  `F32.mk k` is `k · 2^-30`. -/
structure F32 where
  k : Int
  deriving DecidableEq, Repr

namespace F32

/-- Grid units of `1.0f`. -/
def unit : Nat := 2 ^ 30

/-- The exact value of the `float`. -/
def toRat (x : F32) : ℚ := (x.k : ℚ) / (unit : ℚ)

/-- The C++ expression `v / 127.0f` for an integer `v`: `v` is converted to
`float` (rounded to 24 bits) and the quotient is rounded to 24 bits. -/
def divBy127 (v : Int) : F32 :=
  if 0 ≤ v then ⟨roundQuot 24 (roundNat 24 v.toNat * unit) 127⟩
  else ⟨-(roundQuot 24 (roundNat 24 (-v).toNat * unit) 127 : Nat)⟩

end F32

/-! ## The `Synthesizer` facade as seen by the event sources -/

/-- One call on the `Synthesizer` facade (`src/synth.h`). -/
inductive FacadeCall where
  | noteOn (channel note : Int) (velocity : F32)
  | noteOff (channel note : Int)
  | controlChange (channel controller value : Int)
  | programChange (channel program : Int)
  | pitchBend (channel value : Int)
  | allNotesOff
  deriving DecidableEq, Repr

/-! ## `MidiPlayer` (`src/midi_file.cpp`) -/

/-- Modelled from the spec: the message kinds of `vendor/tml.h` (the header is not
part of `src/`); `other` stands for every kind `process` does not name
("sysex, meta, etc."). -/
inductive TMLMessageType where
  | TML_NOTE_OFF
  | TML_NOTE_ON
  | TML_CONTROL_CHANGE
  | TML_PROGRAM_CHANGE
  | TML_PITCH_BEND
  | other (code : Nat)
  deriving DecidableEq, Repr

/-- Modelled from the spec: one node of the time-ordered event list declared in
`vendor/tml.h`, with the fields `process` reads.  `time` is the absolute
timestamp in milliseconds (`unsigned int`); the `next` pointer is the tail of
the list the node sits in. -/
structure tml_message where
  time : Nat
  type : TMLMessageType
  channel : Int
  key : Int
  velocity : Int
  control : Int
  control_value : Int
  program : Int
  pitch_bend : Int
  deriving DecidableEq, Repr

/-- The member `sampleRate_` of `MidiPlayer`: initialised to 44100, never assigned. -/
def sampleRate_ : Nat := 44100

/-- The private state of `MidiPlayer`.  A `tml_message*` is the list that starts
at the node it points to; `nullptr` is `[]`. -/
structure MidiPlayer where
  midi_ : List tml_message
  current_ : List tml_message
  currentTime_ : Double
  playing_ : Bool
  finished_ : Bool
  deriving DecidableEq, Repr

namespace MidiPlayer

/-- The player right after construction. -/
def init : MidiPlayer :=
  { midi_ := [], current_ := [], currentTime_ := Double.fin 0,
    playing_ := false, finished_ := false }

def isPlaying (s : MidiPlayer) : Bool := s.playing_

def isFinished (s : MidiPlayer) : Bool := s.finished_

/-- Source `MidiPlayer::load`; `loaded` is what `tml_load_filename(path)` returns
(`[]` for `NULL`). -/
def load (s : MidiPlayer) (loaded : List tml_message) : MidiPlayer × Bool :=
  let s := if s.midi_ ≠ [] then { s with midi_ := [] } else s
  let s := { s with midi_ := loaded }
  if s.midi_ = [] then (s, false)
  else ({ s with current_ := s.midi_, currentTime_ := Double.fin 0, finished_ := false }, true)

/-- Source `MidiPlayer::play`. -/
def play (s : MidiPlayer) : MidiPlayer :=
  if s.midi_ ≠ [] ∧ s.finished_ = false then { s with playing_ := true } else s

/-- Source `MidiPlayer::stop`, with the facade calls it makes. -/
def stop (s : MidiPlayer) : MidiPlayer × List FacadeCall :=
  ({ s with playing_ := false }, [FacadeCall.allNotesOff])

/-- Source `MidiPlayer::reset`, with the facade calls it makes. -/
def reset (s : MidiPlayer) : MidiPlayer × List FacadeCall :=
  let r := s.stop
  ({ r.1 with current_ := r.1.midi_, currentTime_ := Double.fin 0, finished_ := false }, r.2)

/-- The `switch` in the loop of `process`: the facade calls made for one message. -/
def dispatch (m : tml_message) : List FacadeCall :=
  match m.type with
  | .TML_NOTE_ON =>
    if 0 < m.velocity then [FacadeCall.noteOn m.channel m.key (F32.divBy127 m.velocity)]
    else [FacadeCall.noteOff m.channel m.key]
  | .TML_NOTE_OFF => [FacadeCall.noteOff m.channel m.key]
  | .TML_CONTROL_CHANGE => [FacadeCall.controlChange m.channel m.control m.control_value]
  | .TML_PROGRAM_CHANGE => [FacadeCall.programChange m.channel m.program]
  | .TML_PITCH_BEND => [FacadeCall.pitchBend m.channel m.pitch_bend]
  | .other _ => []

/-- What one run of the `while` loop of `process` does. -/
structure LoopResult where
  /-- facade calls, in order -/
  calls : List FacadeCall
  /-- the messages the cursor moved past, in order -/
  consumed : List tml_message
  /-- the cursor after the loop -/
  current : List tml_message
  deriving DecidableEq, Repr

/-- The loop `while (current_ && current_->time <= targetTime) { ...; current_ = current_->next; }`. -/
def processLoop (targetTime : Double) : List tml_message → LoopResult
  | [] => { calls := [], consumed := [], current := [] }
  | m :: next =>
    if Double.natLe m.time targetTime then
      let r := processLoop targetTime next
      { calls := dispatch m ++ r.calls, consumed := m :: r.consumed, current := r.current }
    else { calls := [], consumed := [], current := m :: next }

/-- What one call of `process` does. -/
structure ProcessResult where
  player : MidiPlayer
  calls : List FacadeCall
  consumed : List tml_message
  deriving DecidableEq, Repr

/-- Source `MidiPlayer::process`. -/
def process (s : MidiPlayer) (samples : Int) : ProcessResult :=
  if s.playing_ = false ∨ s.current_ = [] then { player := s, calls := [], consumed := [] }
  else
    let msPerSample := Double.div1000 sampleRate_
    let targetTime := Double.add s.currentTime_ (Double.scale samples msPerSample)
    let r := processLoop targetTime s.current_
    let s1 := { s with current_ := r.current, currentTime_ := targetTime }
    let s2 := if s1.current_ = [] then { s1 with finished_ := true, playing_ := false } else s1
    { player := s2, calls := r.calls, consumed := r.consumed }

/-- Successive calls `process(f1); process(f2); ...`: the final player and the
result of every call. -/
def processSeq (s : MidiPlayer) : List Int → MidiPlayer × List ProcessResult
  | [] => (s, [])
  | f :: fs =>
    let r := s.process f
    let rest := processSeq r.player fs
    (rest.1, r :: rest.2)

end MidiPlayer

/-- The running sum `(((c + f1 * m) + f2 * m) + ...)` in `double` arithmetic, with
`m = 1000.0 / 44100` and every product and sum rounded to nearest: the elapsed
time in milliseconds that the frame counts `f1, f2, ...` add to the clock value `c`. -/
def clockAfter (c : Double) (frames : List Int) : Double :=
  frames.foldl (fun c f => Double.add c (Double.scale f (Double.div1000 sampleRate_))) c

/-- The events C1 expects to have been consumed after the calls `frames`: those
with `time ≤ (f1 + ... + fk) * 1000 / 44100` in exact arithmetic. -/
def dueExactly (events : List tml_message) (frames : List Int) : List tml_message :=
  events.filter (fun m => decide ((m.time : Int) * 44100 ≤ frames.sum * 1000))

/-- A single note-on message at `time`. -/
def noteOnAt (time : Nat) (channel key velocity : Int) : tml_message :=
  { time := time, type := .TML_NOTE_ON, channel := channel, key := key, velocity := velocity,
    control := 0, control_value := 0, program := 0, pitch_bend := 0 }

/-- A clock value that is `+∞` or a non-negative finite `double`. -/
def NonNegClock (c : Double) : Prop :=
  c = Double.posInf ∨ ∃ k : Nat, c = Double.fin k ∧ Representable 53 k

/-- No message at or after the cursor is due at the current clock value. -/
def MidiPlayer.Fresh (s : MidiPlayer) : Prop :=
  ∀ m ∈ s.current_, Double.natLe m.time s.currentTime_ = false

/-- The player states that calls of the public member functions can produce. -/
inductive MidiPlayer.Reachable : MidiPlayer → Prop
  | init : Reachable MidiPlayer.init
  | load {s : MidiPlayer} (loaded : List tml_message) : Reachable s → Reachable (s.load loaded).1
  | play {s : MidiPlayer} : Reachable s → Reachable s.play
  | stop {s : MidiPlayer} : Reachable s → Reachable s.stop.1
  | reset {s : MidiPlayer} : Reachable s → Reachable s.reset.1
  | process {s : MidiPlayer} (samples : Int) : Reachable s → Reachable (s.process samples).player

/-- A single program-change message at `time`. -/
def programChangeAt (time : Nat) (channel program : Int) : tml_message :=
  { time := time, type := .TML_PROGRAM_CHANGE, channel := channel, key := 0, velocity := 0,
    control := 0, control_value := 0, program := program, pitch_bend := 0 }

/-- A single note-off message at `time`. -/
def noteOffAt (time : Nat) (channel key : Int) : tml_message :=
  { time := time, type := .TML_NOTE_OFF, channel := channel, key := key, velocity := 0,
    control := 0, control_value := 0, program := 0, pitch_bend := 0 }

/-- The sequence of the spec's scenario:
`[(0, programChange ch0 prog5), (10, noteOn ch0 key60 vel100), (500, noteOff ch0 key60)]`. -/
def scenario : List tml_message :=
  [programChangeAt 0 0 5, noteOnAt 10 0 60 100, noteOffAt 500 0 60]

/-! ## `InputHandler::processCommand` (`src/input.cpp`) -/

/-- The predicate `std::isspace` in the "C" locale, which is what `operator>>` skips. -/
def isspace (c : Char) : Bool :=
  c = ' ' || c = '\t' || c = '\n' || c = '\x0b' || c = '\x0c' || c = '\r'

/-- The extraction `iss >> cmd` for a `std::string`: skips leading whitespace and takes the
characters up to the next whitespace; returns the word and the unread rest. -/
def extractWord (iss : List Char) : List Char × List Char :=
  let s := iss.dropWhile isspace
  (s.takeWhile (fun c => !isspace c), s.dropWhile (fun c => !isspace c))

def INT_MAX : Int := 2147483647

def INT_MIN : Int := -2147483648

/-- Value of a decimal digit character. -/
def digitValue (c : Char) : Nat := c.toNat - '0'.toNat

/-- The extraction `iss >> value` for an `int`: skips leading whitespace, reads an optional sign
and the longest run of decimal digits; fails (the stream is left in a failed
state) when there is no digit or the value does not fit an `int`.  Returns the
value and the unread rest. -/
def extractInt (iss : List Char) : Option (Int × List Char) :=
  let s := iss.dropWhile isspace
  let negative := decide (s.head? = some '-')
  let s := if s.head? = some '-' ∨ s.head? = some '+' then s.tail else s
  let digits := s.takeWhile Char.isDigit
  let rest := s.dropWhile Char.isDigit
  if digits = [] then none
  else
    let n : Nat := digits.foldl (fun a c => 10 * a + digitValue c) 0
    let v : Int := if negative then -(n : Int) else (n : Int)
    if INT_MIN ≤ v ∧ v ≤ INT_MAX then some (v, rest) else none

/-- The chained extraction `iss >> a >> b`. -/
def extractInt2 (iss : List Char) : Option (Int × Int) :=
  match extractInt iss with
  | none => none
  | some (a, iss) =>
    match extractInt iss with
    | none => none
    | some (b, _) => some (a, b)

/-- The chained extraction `iss >> a >> b >> c`. -/
def extractInt3 (iss : List Char) : Option (Int × Int × Int) :=
  match extractInt iss with
  | none => none
  | some (a, iss) =>
    match extractInt2 iss with
    | none => none
    | some (b, c) => some (a, b, c)

/-- The characters `printf("%s", cmd.c_str())` prints: those before the first
NUL character. -/
def c_str (cmd : List Char) : List Char := cmd.takeWhile (fun c => c != Char.ofNat 0)

/-- What one call of `processCommand` does. -/
structure CommandResult where
  /-- the return value: `false` on quit -/
  result : Bool
  /-- facade calls, in order -/
  calls : List FacadeCall
  /-- what is printed on `stderr` -/
  stderr : String
  deriving DecidableEq, Repr

/-- Source `InputHandler::processCommand`.  The `sleep` verb only suspends the calling
thread (`usleep`); it makes no facade call and prints nothing. -/
def processCommand (line : String) : CommandResult :=
  if line.data = [] then { result := true, calls := [], stderr := "" }
  else
    let cmd := (extractWord line.data).1
    let iss := (extractWord line.data).2
    if cmd = "quit".data ∨ cmd = "exit".data then { result := false, calls := [], stderr := "" }
    else if cmd = "noteon".data then
      match extractInt3 iss with
      | some (channel, note, velocity) =>
        { result := true, calls := [FacadeCall.noteOn channel note (F32.divBy127 velocity)],
          stderr := "" }
      | none =>
        { result := true, calls := [], stderr := "Usage: noteon <channel> <note> <velocity>\n" }
    else if cmd = "noteoff".data then
      match extractInt2 iss with
      | some (channel, note) =>
        { result := true, calls := [FacadeCall.noteOff channel note], stderr := "" }
      | none => { result := true, calls := [], stderr := "Usage: noteoff <channel> <note>\n" }
    else if cmd = "cc".data then
      match extractInt3 iss with
      | some (channel, controller, value) =>
        { result := true, calls := [FacadeCall.controlChange channel controller value],
          stderr := "" }
      | none =>
        { result := true, calls := [], stderr := "Usage: cc <channel> <controller> <value>\n" }
    else if cmd = "pc".data then
      match extractInt2 iss with
      | some (channel, program) =>
        { result := true, calls := [FacadeCall.programChange channel program], stderr := "" }
      | none => { result := true, calls := [], stderr := "Usage: pc <channel> <program>\n" }
    else if cmd = "pitch".data then
      match extractInt2 iss with
      | some (channel, value) =>
        { result := true, calls := [FacadeCall.pitchBend channel value], stderr := "" }
      | none => { result := true, calls := [], stderr := "Usage: pitch <channel> <value>\n" }
    else if cmd = "panic".data then
      { result := true, calls := [FacadeCall.allNotesOff], stderr := "" }
    else if cmd = "sleep".data then { result := true, calls := [], stderr := "" }
    else
      { result := true, calls := [],
        stderr := "Unknown command: " ++ String.mk (c_str cmd) ++ "\n" }

/-- Decimal digits of `n`, most significant first (`fuel` bounds the number of digits). -/
def decimalDigits : Nat → Nat → List Char
  | 0, _ => []
  | fuel + 1, n =>
    if n < 10 then [Char.ofNat (n + 48)]
    else decimalDigits fuel (n / 10) ++ [Char.ofNat (n % 10 + 48)]

/-- The decimal numeral of an integer, as written in a command line. -/
def decimal (z : Int) : String :=
  if z < 0 then String.mk ('-' :: decimalDigits ((-z).toNat + 1) (-z).toNat)
  else String.mk (decimalDigits (z.toNat + 1) z.toNat)

/-! ## `AlsaInput::inputLoop` (`src/alsa_input.cpp`) -/

/-- Modelled from the spec: the sequencer event kinds of `<alsa/asoundlib.h>` that
`inputLoop` names; `other` stands for every other kind. -/
inductive snd_seq_event_type where
  | SND_SEQ_EVENT_NOTEON
  | SND_SEQ_EVENT_NOTEOFF
  | SND_SEQ_EVENT_CONTROLLER
  | SND_SEQ_EVENT_PGMCHANGE
  | SND_SEQ_EVENT_PITCHBEND
  | SND_SEQ_EVENT_CONTROL14
  | other (code : Nat)
  deriving DecidableEq, Repr

/-- Modelled from the spec: `snd_seq_ev_note_t` of `<alsa/asoundlib.h>`. -/
structure snd_seq_ev_note where
  channel : Int
  note : Int
  velocity : Int
  deriving DecidableEq, Repr

/-- Modelled from the spec: `snd_seq_ev_ctrl_t` of `<alsa/asoundlib.h>`. -/
structure snd_seq_ev_ctrl where
  channel : Int
  param : Int
  value : Int
  deriving DecidableEq, Repr

/-- Modelled from the spec: the members of the union `snd_seq_event_t::data` that
`inputLoop` reads. -/
structure snd_seq_event_data where
  note : snd_seq_ev_note
  control : snd_seq_ev_ctrl
  deriving DecidableEq, Repr

/-- Modelled from the spec: `snd_seq_event_t` of `<alsa/asoundlib.h>`. -/
structure snd_seq_event_t where
  type : snd_seq_event_type
  data : snd_seq_event_data
  deriving DecidableEq, Repr

/-- The `errno` value `EAGAIN`. -/
def EAGAIN : Int := 11

/-- What one call `snd_seq_event_input(impl_->seq, &ev)` delivers: a negative
error code, a null event, or an event. -/
inductive SeqInput where
  | error (err : Int)
  | null
  | event (ev : snd_seq_event_t)
  deriving DecidableEq, Repr

namespace AlsaInput

/-- The `switch (ev->type)` of `inputLoop`: the facade calls made for one event.
`value + 8192` and `value >> 7` are computed on `int`. -/
def handleEvent (ev : snd_seq_event_t) : List FacadeCall :=
  match ev.type with
  | .SND_SEQ_EVENT_NOTEON =>
    if 0 < ev.data.note.velocity then
      [FacadeCall.noteOn ev.data.note.channel ev.data.note.note
        (F32.divBy127 ev.data.note.velocity)]
    else [FacadeCall.noteOff ev.data.note.channel ev.data.note.note]
  | .SND_SEQ_EVENT_NOTEOFF => [FacadeCall.noteOff ev.data.note.channel ev.data.note.note]
  | .SND_SEQ_EVENT_CONTROLLER =>
    [FacadeCall.controlChange ev.data.control.channel ev.data.control.param
      ev.data.control.value]
  | .SND_SEQ_EVENT_PGMCHANGE =>
    [FacadeCall.programChange ev.data.control.channel ev.data.control.value]
  | .SND_SEQ_EVENT_PITCHBEND =>
    [FacadeCall.pitchBend ev.data.control.channel (ev.data.control.value + 8192)]
  | .SND_SEQ_EVENT_CONTROL14 =>
    [FacadeCall.controlChange ev.data.control.channel ev.data.control.param
      (ev.data.control.value >>> 7)]
  | .other _ => []

/-- Source `AlsaInput::inputLoop` on the results the successive `snd_seq_event_input`
calls deliver while `running_` is set: the facade calls it makes.  The list ends
where the loop finds `running_` cleared. -/
def inputLoop : List SeqInput → List FacadeCall
  | [] => []
  | SeqInput.error err :: rest => if err = -EAGAIN then inputLoop rest else []
  | SeqInput.null :: rest => inputLoop rest
  | SeqInput.event ev :: rest => handleEvent ev ++ inputLoop rest

end AlsaInput

/-! ## `Synthesizer` (`src/synth.cpp`) -/

/-- Modelled from the spec: the output modes of `vendor/tsf.h`. -/
inductive TSFOutputMode where
  | TSF_STEREO_INTERLEAVED
  | TSF_STEREO_UNWEAVED
  | TSF_MONO
  deriving DecidableEq, Repr

/-- Modelled from the spec: the calls into the tone engine of `vendor/tsf.h` that
the facade makes; `f` is the engine handle.  `tsf_set_output` is always called
with gain `0.0f`. -/
inductive TsfCall where
  | tsf_channel_note_on (f : Nat) (channel key : Int) (vel : F32)
  | tsf_channel_note_off (f : Nat) (channel key : Int)
  | tsf_channel_midi_control (f : Nat) (channel controller control_value : Int)
  | tsf_channel_set_presetnumber (f : Nat) (channel preset_number : Int) (flag_mididrums : Bool)
  | tsf_channel_set_pitchwheel (f : Nat) (channel pitch_wheel : Int)
  | tsf_note_off_all (f : Nat)
  | tsf_close (f : Nat)
  | tsf_set_output (f : Nat) (outputmode : TSFOutputMode) (samplerate : Int)
  | tsf_render_short (f : Nat) (samples : Int) (flag_mixing : Int)
  deriving DecidableEq, Repr

/-- The private state of `Synthesizer`: the engine handle (`none` for `nullptr`)
and the sample rate. -/
structure Synthesizer where
  tsf_ : Option Nat
  sampleRate_ : Int
  deriving DecidableEq, Repr

namespace Synthesizer

def isLoaded (s : Synthesizer) : Bool := s.tsf_.isSome

/-- Source `Synthesizer::noteOn`. -/
def noteOn (s : Synthesizer) (channel note : Int) (velocity : F32) : List TsfCall :=
  match s.tsf_ with
  | some f => [TsfCall.tsf_channel_note_on f channel note velocity]
  | none => []

/-- Source `Synthesizer::noteOff`. -/
def noteOff (s : Synthesizer) (channel note : Int) : List TsfCall :=
  match s.tsf_ with
  | some f => [TsfCall.tsf_channel_note_off f channel note]
  | none => []

/-- Source `Synthesizer::controlChange`. -/
def controlChange (s : Synthesizer) (channel controller value : Int) : List TsfCall :=
  match s.tsf_ with
  | some f => [TsfCall.tsf_channel_midi_control f channel controller value]
  | none => []

/-- Source `Synthesizer::programChange`. -/
def programChange (s : Synthesizer) (channel program : Int) : List TsfCall :=
  match s.tsf_ with
  | some f => [TsfCall.tsf_channel_set_presetnumber f channel program (decide (channel = 9))]
  | none => []

/-- Source `Synthesizer::pitchBend`.  The local `bend` is computed and discarded. -/
def pitchBend (s : Synthesizer) (channel value : Int) : List TsfCall :=
  match s.tsf_ with
  | some f => [TsfCall.tsf_channel_set_pitchwheel f channel value]
  | none => []

/-- Source `Synthesizer::allNotesOff`. -/
def allNotesOff (s : Synthesizer) : List TsfCall :=
  match s.tsf_ with
  | some f => [TsfCall.tsf_note_off_all f]
  | none => []

end Synthesizer

/-! ## `AudioOutput` (`src/audio.cpp`) -/

namespace AudioOutput

def CHANNELS : Nat := 2

def BUFFER_FRAMES : Nat := 1024

def NUM_BUFFERS : Nat := 2

/-- Size of an `int16_t`. -/
def sizeofInt16 : Nat := 2

end AudioOutput

/-- What `AudioOutput` does to its fill function and to the platform transport. -/
inductive AudioAction where
  /-- The call `callback_(impl_->buffers[bufferIndex], frames)` -/
  | callback (bufferIndex : Nat) (frames : Nat)
  /-- The call `memset(impl_->buffers[bufferIndex], 0, bytes)` -/
  | memset (bufferIndex : Nat) (bytes : Nat)
  /-- The call `Enqueue(bufferQueue, impl_->buffers[bufferIndex], bytes)` -/
  | Enqueue (bufferIndex : Nat) (bytes : Nat)
  /-- The call `SetPlayState(player, SL_PLAYSTATE_PLAYING)` -/
  | SetPlayStatePlaying
  /-- The call `SetPlayState(player, SL_PLAYSTATE_STOPPED)` -/
  | SetPlayStateStopped
  /-- The call `Clear(bufferQueue)` -/
  | Clear
  /-- The dereference `(*impl_->bufferQueue)` of a null `bufferQueue`: undefined
  behaviour.  The call that reaches it does not return normally; a trace is
  meaningful only up to this marker. -/
  | undefined
  deriving DecidableEq, Repr

/-- The transport set-up steps of `AudioOutput::init`, in source order. -/
inductive InitStep where
  | slCreateEngine
  | RealizeEngine
  | GetInterfaceEngine
  | CreateOutputMix
  | RealizeOutputMix
  | CreateAudioPlayer
  | RealizePlayer
  | GetInterfacePlay
  | GetInterfaceBufferQueue
  | RegisterCallback
  deriving DecidableEq, Repr

/-- The state of `AudioOutput`.  A transport handle is `true` when it is not
null; `callback_` is `true` when the stored fill function is not empty. -/
structure AudioOutput where
  engineObject : Bool
  engine : Bool
  outputMixObject : Bool
  playerObject : Bool
  player : Bool
  bufferQueue : Bool
  callback_ : Bool
  running_ : Bool
  currentBuffer_ : Nat
  deriving DecidableEq, Repr

namespace AudioOutput

/-- The object right after construction. -/
def new : AudioOutput :=
  { engineObject := false, engine := false, outputMixObject := false, playerObject := false,
    player := false, bufferQueue := false, callback_ := false, running_ := false,
    currentBuffer_ := 0 }

/-- Source `AudioOutput::init`; `callback` tells whether the fill function passed in is
non-empty and `ok step` whether the transport reports success for `step`. -/
def init (s : AudioOutput) (callback : Bool) (ok : InitStep → Bool) : AudioOutput × Bool :=
  let s := { s with callback_ := callback }
  if !ok .slCreateEngine then (s, false) else
  let s := { s with engineObject := true }
  if !ok .RealizeEngine then (s, false) else
  if !ok .GetInterfaceEngine then (s, false) else
  let s := { s with engine := true }
  if !ok .CreateOutputMix then (s, false) else
  let s := { s with outputMixObject := true }
  if !ok .RealizeOutputMix then (s, false) else
  if !ok .CreateAudioPlayer then (s, false) else
  let s := { s with playerObject := true }
  if !ok .RealizePlayer then (s, false) else
  if !ok .GetInterfacePlay then (s, false) else
  let s := { s with player := true }
  if !ok .GetInterfaceBufferQueue then (s, false) else
  let s := { s with bufferQueue := true }
  if !ok .RegisterCallback then (s, false) else
  (s, true)

/-- Source `AudioOutput::fillBuffer`.  The buffer is filled first; then
`(*impl_->bufferQueue)->Enqueue(...)` dereferences `impl_->bufferQueue` without a
null check, which is undefined when `init` has not obtained the buffer queue. -/
def fillBuffer (s : AudioOutput) (bufferIndex : Nat) : List AudioAction :=
  (if s.callback_ then [AudioAction.callback bufferIndex BUFFER_FRAMES]
    else [AudioAction.memset bufferIndex (BUFFER_FRAMES * CHANNELS * sizeofInt16)]) ++
  (if s.bufferQueue then
    [AudioAction.Enqueue bufferIndex (BUFFER_FRAMES * CHANNELS * sizeofInt16)]
  else [AudioAction.undefined])

/-- The loop `for (int i = 0; i < NUM_BUFFERS; ++i) fillBuffer(i);` from index `i`
with `n` iterations left.  It ends at the first `fillBuffer` that runs into
undefined behaviour. -/
def fillLoop (s : AudioOutput) (i : Nat) : Nat → List AudioAction
  | 0 => []
  | n + 1 => if s.bufferQueue then s.fillBuffer i ++ fillLoop s (i + 1) n else s.fillBuffer i

/-- Source `AudioOutput::start`; `playOk` tells whether the transport accepts the request
to play.  With a null `bufferQueue` the first `fillBuffer` is undefined: the
trace ends at the marker and neither the returned state nor the returned value
means anything. -/
def start (s : AudioOutput) (playOk : Bool) : AudioOutput × Bool × List AudioAction :=
  if !s.player then (s, false, [])
  else
    let s := { s with running_ := true, currentBuffer_ := 0 }
    let filled := s.fillLoop 0 NUM_BUFFERS
    if !s.bufferQueue then (s, false, filled)
    else if !playOk then
      ({ s with running_ := false }, false, filled ++ [AudioAction.SetPlayStatePlaying])
    else (s, true, filled ++ [AudioAction.SetPlayStatePlaying])

/-- Source `AudioOutput::onBufferComplete`.  With a null `bufferQueue` the trace ends
in the `undefined` marker of `fillBuffer` and the returned state means nothing. -/
def onBufferComplete (s : AudioOutput) : AudioOutput × List AudioAction :=
  ({ s with currentBuffer_ := (s.currentBuffer_ + 1) % NUM_BUFFERS },
    s.fillBuffer s.currentBuffer_)

/-- Source `AudioOutput::stop`. -/
def stop (s : AudioOutput) : AudioOutput × List AudioAction :=
  ({ s with running_ := false },
    (if s.player then [AudioAction.SetPlayStateStopped] else []) ++
    (if s.bufferQueue then [AudioAction.Clear] else []))

end AudioOutput

/-- The unread input does not continue with a decimal digit. -/
def NoDigitAhead (rest : List Char) : Prop := ∀ c ∈ rest.head?, c.isDigit = false

/-- The line consists of optional whitespace, then the word `verb` as its first
whitespace-delimited token, then `rest` (empty, or starting with whitespace). -/
def StartsWithVerb (line verb rest : List Char) : Prop :=
  ∃ pre : List Char, line = pre ++ verb ++ rest ∧ (∀ c ∈ pre, isspace c = true) ∧
    verb ≠ [] ∧ (∀ c ∈ verb, isspace c = false) ∧ (∀ c ∈ rest.head?, isspace c = true)

/-- The first whitespace-delimited token of the line is `verb`. -/
def FirstToken (line verb : List Char) : Prop := ∃ rest, StartsWithVerb line verb rest

/-- Reads `k` integers in a row with `operator>>`: the values and the unread rest. -/
def readInts : Nat → List Char → Option (List Int × List Char)
  | 0, iss => some ([], iss)
  | k + 1, iss =>
    match extractInt iss with
    | none => none
    | some (a, rest) =>
      match readInts k rest with
      | none => none
      | some (args, rest) => some (a :: args, rest)

/-- The decimal value of a digit string. -/
def decimalValue (ds : List Char) : Nat := ds.foldl (fun a c => 10 * a + digitValue c) 0

/-- The input begins with an `int` numeral of value `z` and continues with
`rest`: it is optional whitespace, an optional sign, a non-empty run of decimal
digits that does not continue into `rest`, and the signed value `z` of the run is
an `int`.  The numeral ends where its digits end, not at the next whitespace. -/
def BeginsWithInt (iss : List Char) (z : Int) (rest : List Char) : Prop :=
  ∃ ws sign ds : List Char, iss = ws ++ (sign ++ (ds ++ rest)) ∧
    (∀ c ∈ ws, isspace c = true) ∧ (sign = [] ∨ sign = ['-'] ∨ sign = ['+']) ∧
    ds ≠ [] ∧ (∀ c ∈ ds, c.isDigit = true) ∧ NoDigitAhead rest ∧
    z = (if sign = ['-'] then -(decimalValue ds : Int) else (decimalValue ds : Int)) ∧
    INT_MIN ≤ z ∧ z ≤ INT_MAX

/-- The input begins with `k` `int` numerals in a row and continues with `rest`. -/
def BeginsWithInts : Nat → List Char → List Char → Prop
  | 0, iss, rest => rest = iss
  | k + 1, iss, rest => ∃ z mid, BeginsWithInt iss z mid ∧ BeginsWithInts k mid rest

/-- The argument list `iss` is well formed for a verb that requires `n` integers:
`n` integers in a row can be read from it with `operator>>`. -/
def WellFormedArguments (n : Nat) (iss : List Char) : Prop :=
  ∃ args rest, readInts n iss = some (args, rest)

/-- Whether the action is an invocation of the fill function. -/
def AudioAction.isCallback : AudioAction → Bool
  | .callback _ _ => true
  | _ => false

/-! ## `Synthesizer`: soundfont loading and rendering -/

/-- Number of bits of `size_t`. -/
def SIZE_BITS : Nat := 64

/-- What `Synthesizer::render` does to the sample buffer. -/
inductive RenderOutcome where
  /-- The facade wrote the buffer itself; `buffer` is its content afterwards. -/
  | written (buffer : List Int)
  /-- The engine was asked to fill the buffer. -/
  | engine (call : TsfCall)
  /-- The call has undefined behaviour: the `int` product `frames * 2` overflows,
  or `memset` is asked to write more bytes than the buffer holds. -/
  | undefined
  deriving DecidableEq, Repr

/-- The call `std::memset(buffer, 0, bytes)` on a buffer of 16-bit samples (`bytes`
is a multiple of the sample size wherever it is called). -/
def memsetZero (buffer : List Int) (bytes : Nat) : RenderOutcome :=
  if bytes ≤ buffer.length * AudioOutput.sizeofInt16 then
    RenderOutcome.written
      (List.replicate (bytes / AudioOutput.sizeofInt16) 0 ++
        buffer.drop (bytes / AudioOutput.sizeofInt16))
  else RenderOutcome.undefined

namespace Synthesizer

/-- The facade right after construction. -/
def new : Synthesizer := { tsf_ := none, sampleRate_ := 44100 }

/-- Source `Synthesizer::loadSoundFont`; `loaded` is what `tsf_load_filename(path)`
returns (`none` for `NULL`).  Yields the facade afterwards, the return value and
the engine calls made. -/
def loadSoundFont (s : Synthesizer) (loaded : Option Nat) : Synthesizer × Bool × List TsfCall :=
  let closed := match s.tsf_ with
    | some f => [TsfCall.tsf_close f]
    | none => []
  let s := { s with tsf_ := none }
  let s := { s with tsf_ := loaded }
  match s.tsf_ with
  | none => (s, false, closed)
  | some f =>
    (s, true,
      closed ++ [TsfCall.tsf_set_output f TSFOutputMode.TSF_STEREO_INTERLEAVED s.sampleRate_])

/-- Source `Synthesizer::setOutput`. -/
def setOutput (s : Synthesizer) (sampleRate : Int) : Synthesizer × List TsfCall :=
  let s := { s with sampleRate_ := sampleRate }
  match s.tsf_ with
  | some f => (s, [TsfCall.tsf_set_output f TSFOutputMode.TSF_STEREO_INTERLEAVED sampleRate])
  | none => (s, [])

/-- Source `Synthesizer::render` on a buffer of 16-bit samples.  In
`frames * 2 * sizeof(int16_t)` the product `frames * 2` is computed on `int`,
converted to `size_t` and multiplied by the sample size. -/
def render (s : Synthesizer) (buffer : List Int) (frames : Int) : RenderOutcome :=
  match s.tsf_ with
  | some f => RenderOutcome.engine (TsfCall.tsf_render_short f frames 0)
  | none =>
    if frames * 2 < INT_MIN ∨ INT_MAX < frames * 2 then RenderOutcome.undefined
    else
      memsetZero buffer
        (((frames * 2) % (2 ^ SIZE_BITS : Int)).toNat * AudioOutput.sizeofInt16 % 2 ^ SIZE_BITS)

end Synthesizer

/-! ## `AudioOutput`: completion notifications -/

/-- The object after `k` completion notifications (`onBufferComplete` calls). -/
def AudioOutput.afterNotifications (s : AudioOutput) : Nat → AudioOutput
  | 0 => s
  | k + 1 => (AudioOutput.afterNotifications s k).onBufferComplete.1

/-! ## `MidiPlayer`: operations with their facade calls -/

/-- A call of a public member function of `MidiPlayer`. -/
inductive MidiPlayer.Op where
  | load (loaded : List tml_message)
  | play
  | stop
  | reset
  | process (samples : Int)
  deriving DecidableEq, Repr

/-- The player after the call and the facade calls the call makes (`load` and
`play` contain no call on the facade). -/
def MidiPlayer.step (s : MidiPlayer) : MidiPlayer.Op → MidiPlayer × List FacadeCall
  | .load loaded => ((s.load loaded).1, [])
  | .play => (s.play, [])
  | .stop => s.stop
  | .reset => s.reset
  | .process samples => ((s.process samples).player, (s.process samples).calls)

/-- The player after a sequence of calls. -/
def MidiPlayer.run (s : MidiPlayer) : List MidiPlayer.Op → MidiPlayer
  | [] => s
  | op :: ops => MidiPlayer.run (s.step op).1 ops

/-- The comparison `x < y` of two `double`s. -/
def Double.lt : Double → Double → Bool
  | Double.nan, _ => false
  | _, Double.nan => false
  | Double.fin a, Double.fin b => decide (a < b)
  | Double.fin _, Double.posInf => true
  | Double.negInf, Double.fin _ => true
  | Double.negInf, Double.posInf => true
  | _, _ => false

/-- A finite clock value is a `double`: its magnitude has 53 significant bits and
is below the overflow bound. -/
def Double.WellFormed : Double → Prop
  | Double.fin k => Representable 53 k.natAbs ∧ k.natAbs < Double.overflowBound
  | _ => True

/-! # Theorems -/

/-! ## Rounding -/

theorem excessBits_spec (p : Nat) : ∀ fuel n, n ≤ fuel →
    n < 2 ^ (p + excessBits p fuel n) ∧
      (excessBits p fuel n ≠ 0 → 2 ^ (p + excessBits p fuel n - 1) ≤ n) := by
  intro fuel
  induction fuel with
  | zero =>
    intro n hn
    have h0 : n = 0 := by omega
    subst h0
    simp [excessBits]
  | succ f ih =>
    intro n hn
    unfold excessBits
    by_cases hlt : n < 2 ^ p
    · simp [hlt]
    · have hpos : 1 ≤ 2 ^ p := Nat.one_le_two_pow
      have hhalf : n / 2 ≤ f := by omega
      obtain ⟨h1, h2⟩ := ih (n / 2) hhalf
      simp only [hlt, if_false]
      constructor
      · have : 2 ^ (p + (excessBits p f (n / 2) + 1)) = 2 * 2 ^ (p + excessBits p f (n / 2)) := by
          rw [← Nat.add_assoc, Nat.pow_succ]; ring
        omega
      · intro _
        by_cases hz : excessBits p f (n / 2) = 0
        · simp [hz]; omega
        · have h3 := h2 hz
          have : 2 ^ (p + (excessBits p f (n / 2) + 1) - 1) = 2 * 2 ^ (p + excessBits p f (n / 2) - 1) := by
            have : p + (excessBits p f (n / 2) + 1) - 1 = (p + excessBits p f (n / 2) - 1) + 1 := by omega
            rw [this, Nat.pow_succ]; ring
          omega

theorem excessBits_lt (p n : Nat) : n < 2 ^ (p + excessBits p n n) :=
  (excessBits_spec p n n le_rfl).1

theorem excessBits_ge (p n : Nat) (h : excessBits p n n ≠ 0) :
    2 ^ (p + excessBits p n n - 1) ≤ n :=
  (excessBits_spec p n n le_rfl).2 h

theorem excessBits_le_of_lt (p n j : Nat) (h : n < 2 ^ (p + j)) : excessBits p n n ≤ j := by
  by_contra hc
  have hne : excessBits p n n ≠ 0 := by omega
  have h2 := excessBits_ge p n hne
  have h3 : 2 ^ (p + j) ≤ 2 ^ (p + excessBits p n n - 1) :=
    Nat.pow_le_pow_right (by norm_num) (by omega)
  omega

theorem excessBits_mono (p : Nat) {a b : Nat} (h : a ≤ b) :
    excessBits p a a ≤ excessBits p b b :=
  excessBits_le_of_lt p a _ (lt_of_le_of_lt h (excessBits_lt p b))

theorem le_floor_of_dvd (U a n : Nat) (hU : 0 < U) (hd : U ∣ a) (h : a ≤ n) :
    a ≤ n / U * U := by
  obtain ⟨w, rfl⟩ := hd
  have hw : w ≤ n / U := (Nat.le_div_iff_mul_le hU).2 (by rwa [Nat.mul_comm])
  calc U * w = w * U := Nat.mul_comm _ _
    _ ≤ n / U * U := Nat.mul_le_mul_right _ hw

theorem ceil_le_of_dvd (U c n : Nat) (hU : 0 < U) (hd : U ∣ c) (h : n < c) :
    (n / U + 1) * U ≤ c := by
  obtain ⟨w, rfl⟩ := hd
  have hw : n / U < w := (Nat.div_lt_iff_lt_mul hU).2 (by rwa [Nat.mul_comm])
  calc (n / U + 1) * U ≤ w * U := Nat.mul_le_mul_right _ hw
    _ = U * w := Nat.mul_comm _ _

theorem roundNat_cases (p n : Nat) :
    roundNat p n = n / 2 ^ excessBits p n n * 2 ^ excessBits p n n ∨
      (roundNat p n = (n / 2 ^ excessBits p n n + 1) * 2 ^ excessBits p n n ∧
        n % 2 ^ excessBits p n n ≠ 0) := by
  have hU : 0 < 2 ^ excessBits p n n := Nat.two_pow_pos _
  simp only [roundNat, roundQuot, Nat.div_one, one_mul]
  split_ifs with h1 h2 h3
  · left; rfl
  · right; exact ⟨rfl, by omega⟩
  · left; rfl
  · right; exact ⟨rfl, by omega⟩

theorem representable_of_dvd (p x j : Nat) (hd : 2 ^ j ∣ x) (hlt : x < 2 ^ (p + j)) :
    Representable p x :=
  Dvd.dvd.trans (Nat.pow_dvd_pow 2 (excessBits_le_of_lt p x j hlt)) hd

theorem quot_lt (p n : Nat) : n / 2 ^ excessBits p n n < 2 ^ p := by
  rw [Nat.div_lt_iff_lt_mul (Nat.two_pow_pos _), ← Nat.pow_add]
  exact excessBits_lt p n

theorem representable_roundNat (p n : Nat) (hp : 0 < p) : Representable p (roundNat p n) := by
  have hU : 0 < 2 ^ excessBits p n n := Nat.two_pow_pos _
  have hq := quot_lt p n
  rcases roundNat_cases p n with h | ⟨h, _⟩
  · rw [h]
    apply representable_of_dvd p _ (excessBits p n n) (Dvd.intro_left _ rfl)
    rw [Nat.pow_add]
    exact Nat.mul_lt_mul_of_pos_right hq hU
  · rw [h]
    by_cases hq2 : n / 2 ^ excessBits p n n + 1 < 2 ^ p
    · apply representable_of_dvd p _ (excessBits p n n) (Dvd.intro_left _ rfl)
      rw [Nat.pow_add]
      exact Nat.mul_lt_mul_of_pos_right hq2 hU
    · have he : n / 2 ^ excessBits p n n + 1 = 2 ^ p := by omega
      rw [he, ← Nat.pow_add]
      apply representable_of_dvd p _ (excessBits p n n + 1)
      · exact Nat.pow_dvd_pow 2 (by omega)
      · exact Nat.pow_lt_pow_right (by norm_num) (by omega)

theorem le_roundNat (p c n : Nat) (hp : 0 < p) (hc : Representable p c) (h : c ≤ n) :
    c ≤ roundNat p n := by
  have hU : 0 < 2 ^ excessBits p n n := Nat.two_pow_pos _
  have hfloor : c ≤ n / 2 ^ excessBits p n n * 2 ^ excessBits p n n := by
    rcases Nat.lt_or_ge (excessBits p c c) (excessBits p n n) with hlt | hge
    · have hne : excessBits p n n ≠ 0 := by omega
      have h1 := excessBits_ge p n hne
      have h2 := excessBits_lt p c
      have h3 : 2 ^ (p + excessBits p c c) ≤ 2 ^ (p + excessBits p n n - 1) :=
        Nat.pow_le_pow_right (by norm_num) (by omega)
      have h5 : 2 ^ excessBits p n n ∣ 2 ^ (p + excessBits p n n - 1) :=
        Nat.pow_dvd_pow 2 (by omega)
      have h6 := le_floor_of_dvd _ _ n hU h5 h1
      omega
    · have heq : excessBits p c c = excessBits p n n :=
        le_antisymm (excessBits_mono p h) hge
      exact le_floor_of_dvd _ c n hU (heq ▸ hc) h
  rcases roundNat_cases p n with h1 | ⟨h1, _⟩
  · rw [h1]; exact hfloor
  · rw [h1, Nat.add_mul]; omega

theorem roundNat_le (p c n : Nat) (hc : Representable p c) (h : n ≤ c) :
    roundNat p n ≤ c := by
  have hU : 0 < 2 ^ excessBits p n n := Nat.two_pow_pos _
  rcases roundNat_cases p n with h1 | ⟨h1, hr⟩
  · rw [h1]
    have := Nat.div_mul_le_self n (2 ^ excessBits p n n)
    omega
  · rw [h1]
    rcases Nat.lt_or_ge (excessBits p n n) (excessBits p c c) with hlt | hge
    · have hne : excessBits p c c ≠ 0 := by omega
      have h2 := excessBits_ge p c hne
      have h3 : 2 ^ (p + excessBits p n n) ≤ 2 ^ (p + excessBits p c c - 1) :=
        Nat.pow_le_pow_right (by norm_num) (by omega)
      have hq := quot_lt p n
      have h4 : (n / 2 ^ excessBits p n n + 1) * 2 ^ excessBits p n n ≤
          2 ^ p * 2 ^ excessBits p n n := Nat.mul_le_mul_right _ hq
      rw [← Nat.pow_add] at h4
      omega
    · have heq : excessBits p c c = excessBits p n n :=
        le_antisymm hge (excessBits_mono p h)
      have hd : 2 ^ excessBits p n n ∣ c := heq ▸ hc
      apply ceil_le_of_dvd _ c n hU hd
      rcases Nat.lt_or_ge n c with h5 | h5
      · exact h5
      · exfalso
        have h6 : n = c := le_antisymm h h5
        apply hr
        rw [h6]
        exact Nat.mod_eq_zero_of_dvd hc

theorem roundNat_of_representable (p c : Nat) (hp : 0 < p) (hc : Representable p c) :
    roundNat p c = c :=
  le_antisymm (roundNat_le p c c hc le_rfl) (le_roundNat p c c hp hc le_rfl)

/-! ## The playback clock never runs backwards on non-negative frame counts -/

theorem Double.round_nonneg (z : Int) (hz : 0 ≤ z) : NonNegClock (Double.round z) := by
  unfold Double.round
  simp only [hz, if_true]
  split_ifs with h
  · right
    exact ⟨_, rfl, representable_roundNat 53 _ (by norm_num)⟩
  · left; rfl

theorem Double.scale_nonneg (f : Int) (hf : 0 ≤ f) :
    NonNegClock (Double.scale f (Double.div1000 sampleRate_)) := by
  unfold Double.div1000 Double.scale
  exact Double.round_nonneg _ (Int.mul_nonneg hf (Int.ofNat_nonneg _))

theorem Double.natLe_anti {t t' : Nat} (h : t ≤ t') (d : Double)
    (h' : Double.natLe t' d = true) : Double.natLe t d = true := by
  cases d with
  | fin k =>
    simp only [Double.natLe, decide_eq_true_eq] at h' ⊢
    have : ((t * Double.unit : Nat) : Int) ≤ ((t' * Double.unit : Nat) : Int) :=
      Int.ofNat_le.2 (Nat.mul_le_mul_right _ h)
    omega
  | posInf => rfl
  | negInf => simp [Double.natLe] at h'
  | nan => simp [Double.natLe] at h'

theorem Double.add_nonneg (c p : Double) (hc : NonNegClock c) (hp : NonNegClock p) :
    NonNegClock (Double.add c p) ∧
      ∀ t, Double.natLe t c = true → Double.natLe t (Double.add c p) = true := by
  rcases hc with rfl | ⟨k, rfl, hk⟩
  · rcases hp with rfl | ⟨j, rfl, _⟩
    · exact ⟨Or.inl rfl, fun _ _ => rfl⟩
    · exact ⟨Or.inl rfl, fun _ _ => rfl⟩
  · rcases hp with rfl | ⟨j, rfl, _⟩
    · exact ⟨Or.inl rfl, fun _ _ => rfl⟩
    · have hsum : (0 : Int) ≤ (k : Int) + (j : Int) := by omega
      refine ⟨Double.round_nonneg _ hsum, ?_⟩
      intro t ht
      simp only [Double.add, Double.round, hsum, if_true]
      have hto : ((k : Int) + (j : Int)).toNat = k + j := by omega
      rw [hto]
      have hle : k ≤ roundNat 53 (k + j) :=
        le_roundNat 53 k (k + j) (by norm_num) hk (Nat.le_add_right _ _)
      split_ifs with h
      · simp only [Double.natLe, decide_eq_true_eq] at ht ⊢
        omega
      · rfl

namespace MidiPlayer

theorem processLoop_append (T : Double) (l : List tml_message) :
    (processLoop T l).consumed ++ (processLoop T l).current = l := by
  induction l with
  | nil => rfl
  | cons m next ih =>
    unfold processLoop
    split_ifs with h
    · simp [ih]
    · rfl

theorem processLoop_consumed_le (T : Double) (l : List tml_message) :
    ∀ m ∈ (processLoop T l).consumed, Double.natLe m.time T = true := by
  induction l with
  | nil => intro m hm; simp [processLoop] at hm
  | cons a next ih =>
    intro m hm
    unfold processLoop at hm
    split_ifs at hm with h
    · simp only [List.mem_cons] at hm
      rcases hm with rfl | hm
      · exact h
      · exact ih m hm
    · simp at hm

theorem processLoop_calls (T : Double) (l : List tml_message) :
    (processLoop T l).calls = ((processLoop T l).consumed.map dispatch).flatten := by
  induction l with
  | nil => rfl
  | cons a next ih =>
    unfold processLoop
    split_ifs with h
    · simp [ih]
    · rfl

theorem processLoop_current_gt (T : Double) (l : List tml_message)
    (hs : l.Pairwise (fun a b => a.time ≤ b.time)) :
    ∀ m ∈ (processLoop T l).current, Double.natLe m.time T = false := by
  induction l with
  | nil => intro m hm; simp [processLoop] at hm
  | cons a next ih =>
    intro m hm
    rw [List.pairwise_cons] at hs
    unfold processLoop at hm
    split_ifs at hm with h
    · exact ih hs.2 m hm
    · simp only [List.mem_cons] at hm
      have ha : Double.natLe a.time T = false := by simpa using h
      rcases hm with rfl | hm
      · exact ha
      · by_contra hc
        have hc' : Double.natLe m.time T = true := by simpa using hc
        have := Double.natLe_anti (hs.1 m hm) T hc'
        rw [ha] at this
        exact Bool.false_ne_true this

theorem process_step (s : MidiPlayer) (f : Int) (pre : List tml_message) (hf : 0 ≤ f)
    (hs : (pre ++ s.current_).Pairwise (fun a b => a.time ≤ b.time))
    (hc : NonNegClock s.currentTime_)
    (hpre : ∀ m ∈ pre, Double.natLe m.time s.currentTime_ = true)
    (hpl : s.playing_ = true ∨ s.current_ = []) :
    (s.process f).consumed ++ (s.process f).player.current_ = s.current_ ∧
      NonNegClock (s.process f).player.currentTime_ ∧
      (∀ m ∈ pre ++ (s.process f).consumed,
        Double.natLe m.time (s.process f).player.currentTime_ = true) ∧
      ((s.process f).player.playing_ = true ∨ (s.process f).player.current_ = []) ∧
      Fresh (s.process f).player := by
  by_cases hidle : s.playing_ = false ∨ s.current_ = []
  · have hcur : s.current_ = [] := by
      rcases hidle with h | h
      · rcases hpl with h' | h'
        · rw [h] at h'; exact absurd h' Bool.false_ne_true
        · exact h'
      · exact h
    have hp : s.process f = { player := s, calls := [], consumed := [] } := by
      unfold process; rw [if_pos hidle]
    rw [hp]
    refine ⟨by simp [hcur], hc, ?_, Or.inr hcur, ?_⟩
    · intro m hm
      exact hpre m (by simpa using hm)
    · intro m hm
      rw [hcur] at hm
      simp at hm
  · obtain ⟨hmono1, hmono2⟩ := Double.add_nonneg s.currentTime_
      (Double.scale f (Double.div1000 sampleRate_)) hc (Double.scale_nonneg f hf)
    have hs2 : s.current_.Pairwise (fun a b => a.time ≤ b.time) :=
      (List.pairwise_append.1 hs).2.1
    have hplay : s.playing_ = true := by
      rcases hpl with h | h
      · exact h
      · exact absurd (Or.inr h) hidle
    unfold process
    rw [if_neg hidle]
    simp only
    split_ifs with hend
    · refine ⟨?_, hmono1, ?_, Or.inr hend, ?_⟩
      · exact processLoop_append _ _
      · intro m hm
        rcases List.mem_append.1 hm with h | h
        · exact hmono2 _ (hpre m h)
        · exact processLoop_consumed_le _ _ m h
      · intro m hm
        exact processLoop_current_gt _ _ hs2 m hm
    · refine ⟨?_, hmono1, ?_, Or.inl hplay, ?_⟩
      · exact processLoop_append _ _
      · intro m hm
        rcases List.mem_append.1 hm with h | h
        · exact hmono2 _ (hpre m h)
        · exact processLoop_consumed_le _ _ m h
      · intro m hm
        exact processLoop_current_gt _ _ hs2 m hm

theorem processSeq_inv (frames : List Int) :
    ∀ (s : MidiPlayer) (pre : List tml_message), (∀ f ∈ frames, 0 ≤ f) →
      (pre ++ s.current_).Pairwise (fun a b => a.time ≤ b.time) →
      NonNegClock s.currentTime_ →
      (∀ m ∈ pre, Double.natLe m.time s.currentTime_ = true) →
      (s.playing_ = true ∨ s.current_ = []) →
      (((s.processSeq frames).2.map (fun r => r.consumed)).flatten ++
          (s.processSeq frames).1.current_ = s.current_) ∧
        (∀ m ∈ pre ++ ((s.processSeq frames).2.map (fun r => r.consumed)).flatten,
          Double.natLe m.time (s.processSeq frames).1.currentTime_ = true) ∧
        (frames ≠ [] ∨ Fresh s → Fresh (s.processSeq frames).1) := by
  induction frames with
  | nil =>
    intro s pre _ _ _ hpre _
    refine ⟨by simp [processSeq], ?_, ?_⟩
    · intro m hm
      exact hpre m (by simpa [processSeq] using hm)
    · intro h
      rcases h with h | h
      · exact absurd rfl h
      · exact h
  | cons f fs ih =>
    intro s pre hfr hs hc hpre hpl
    obtain ⟨h1, h2, h3, h4, h5⟩ :=
      process_step s f pre (hfr f (List.mem_cons_self _ _)) hs hc hpre hpl
    have hs' : ((pre ++ (s.process f).consumed) ++ (s.process f).player.current_).Pairwise
        (fun a b => a.time ≤ b.time) := by
      rw [List.append_assoc, h1]; exact hs
    obtain ⟨i1, i2, i3⟩ := ih (s.process f).player (pre ++ (s.process f).consumed)
      (fun g hg => hfr g (List.mem_cons_of_mem _ hg)) hs' h2 h3 h4
    refine ⟨?_, ?_, ?_⟩
    · simp only [processSeq, List.map_cons, List.flatten_cons, List.append_assoc]
      rw [i1, h1]
    · intro m hm
      apply i2
      simpa [processSeq, List.append_assoc] using hm
    · intro _
      exact i3 (Or.inr h5)

theorem process_calls (s : MidiPlayer) (f : Int) :
    (s.process f).calls = ((s.process f).consumed.map dispatch).flatten := by
  unfold process
  split_ifs with h
  · rfl
  · exact processLoop_calls _ _

theorem processSeq_calls (frames : List Int) :
    ∀ s : MidiPlayer,
      ((s.processSeq frames).2.map (fun r => r.calls)).flatten =
        ((((s.processSeq frames).2.map (fun r => r.consumed)).flatten).map dispatch).flatten := by
  induction frames with
  | nil => intro s; rfl
  | cons f fs ih =>
    intro s
    simp only [processSeq, List.map_cons, List.flatten_cons, List.map_append,
      List.flatten_append]
    rw [ih, process_calls]

end MidiPlayer

/-- Non-negative frame counts never move the running sum below a timestamp it
has reached. -/
theorem clockAfter_mono (frames : List Int) :
    ∀ c : Double, (∀ f ∈ frames, 0 ≤ f) → NonNegClock c →
      NonNegClock (clockAfter c frames) ∧
        ∀ t, Double.natLe t c = true → Double.natLe t (clockAfter c frames) = true := by
  induction frames with
  | nil => intro c _ hc; exact ⟨hc, fun _ h => h⟩
  | cons f fs ih =>
    intro c hfr hc
    obtain ⟨h1, h2⟩ := Double.add_nonneg c (Double.scale f (Double.div1000 sampleRate_)) hc
      (Double.scale_nonneg f (hfr f (List.mem_cons_self _ _)))
    obtain ⟨i1, i2⟩ := ih (Double.add c (Double.scale f (Double.div1000 sampleRate_)))
      (fun g hg => hfr g (List.mem_cons_of_mem _ hg)) h1
    exact ⟨i1, fun t ht => i2 t (h2 t ht)⟩

theorem filter_natLe_eq_self (l : List tml_message) (c : Double)
    (h : ∀ m ∈ l, Double.natLe m.time c = true) :
    l.filter (fun m => Double.natLe m.time c) = l := by
  rw [List.filter_eq_self]
  exact h

theorem filter_natLe_eq_nil (l : List tml_message) (c : Double)
    (h : ∀ m ∈ l, Double.natLe m.time c = false) :
    l.filter (fun m => Double.natLe m.time c) = [] := by
  rw [List.filter_eq_nil_iff]
  intro m hm
  rw [h m hm]
  exact Bool.false_ne_true

/-- Successive `process` calls consume exactly the messages at the cursor that
are due at the running sum of the frame counts, and the clock is that running
sum as long as the sequence has not ended. -/
theorem MidiPlayer.processSeq_clock (frames : List Int) :
    ∀ s : MidiPlayer, (∀ f ∈ frames, 0 ≤ f) →
      s.current_.Pairwise (fun a b => a.time ≤ b.time) →
      NonNegClock s.currentTime_ →
      (s.playing_ = true ∨ s.current_ = []) →
      (frames ≠ [] ∨ MidiPlayer.Fresh s) →
      ((s.processSeq frames).2.map (fun r => r.consumed)).flatten =
          s.current_.filter (fun m => Double.natLe m.time (clockAfter s.currentTime_ frames)) ∧
        ((s.processSeq frames).1.current_ ≠ [] →
          (s.processSeq frames).1.currentTime_ = clockAfter s.currentTime_ frames) := by
  induction frames with
  | nil =>
    intro s _ _ _ _ hfresh
    rcases hfresh with h | h
    · exact absurd rfl h
    · exact ⟨(filter_natLe_eq_nil _ _ h).symm, fun _ => rfl⟩
  | cons f fs ih =>
    intro s hfr hs hc hpl _
    have hf : 0 ≤ f := hfr f (List.mem_cons_self _ _)
    have hfs : ∀ g ∈ fs, 0 ≤ g := fun g hg => hfr g (List.mem_cons_of_mem _ hg)
    obtain ⟨h1, h2, h3, h4, h5⟩ :=
      MidiPlayer.process_step s f [] hf (by simpa using hs) hc (by simp) hpl
    have hs' : (s.process f).player.current_.Pairwise (fun a b => a.time ≤ b.time) := by
      rw [← h1] at hs
      exact (List.pairwise_append.1 hs).2.1
    obtain ⟨i1, i2⟩ := ih (s.process f).player hfs hs' h2 h4 (Or.inr h5)
    by_cases hidle : s.playing_ = false ∨ s.current_ = []
    · have hcur : s.current_ = [] := by
        rcases hidle with h | h
        · rcases hpl with h' | h'
          · rw [h] at h'; exact absurd h' Bool.false_ne_true
          · exact h'
        · exact h
      have hp : s.process f = { player := s, calls := [], consumed := [] } := by
        unfold MidiPlayer.process; rw [if_pos hidle]
      rw [hp] at i1 i2
      simp only at i1 i2
      have hfin : (s.processSeq fs).1.current_ = [] := by
        have h := (MidiPlayer.processSeq_inv fs s [] hfs (by simpa using hs) hc (by simp) hpl).1
        rw [hcur] at h
        exact (List.append_eq_nil.1 h).2
      simp only [MidiPlayer.processSeq, hp, List.map_cons, List.flatten_cons, List.nil_append]
      refine ⟨?_, fun h => absurd hfin h⟩
      rw [i1, hcur]
      rfl
    · have hT : (s.process f).player.currentTime_ =
          Double.add s.currentTime_ (Double.scale f (Double.div1000 sampleRate_)) := by
        unfold MidiPlayer.process
        rw [if_neg hidle]
        simp only
        split_ifs <;> rfl
      have hca : clockAfter s.currentTime_ (f :: fs) =
          clockAfter (s.process f).player.currentTime_ fs := by
        rw [hT]; rfl
      rw [hca]
      simp only [MidiPlayer.processSeq, List.map_cons, List.flatten_cons]
      refine ⟨?_, i2⟩
      rw [i1]
      conv_rhs => rw [← h1]
      rw [List.filter_append]
      congr 1
      refine (filter_natLe_eq_self _ _ ?_).symm
      intro m hm
      exact (clockAfter_mono fs _ hfs h2).2 _ (h3 m (by simpa using hm))

/-- The results of the first `j` calls are the results of those calls alone. -/
theorem MidiPlayer.processSeq_take (frames : List Int) :
    ∀ (s : MidiPlayer) (j : Nat),
      (s.processSeq frames).2.take j = (s.processSeq (frames.take j)).2 := by
  induction frames with
  | nil => intro s j; simp [MidiPlayer.processSeq]
  | cons f fs ih =>
    intro s j
    cases j with
    | zero => simp [MidiPlayer.processSeq]
    | succ j =>
      simp only [MidiPlayer.processSeq, List.take_succ_cons]
      rw [ih]

/-- After `load` and `play()`, successive `process` calls consume the messages
due at the running sum of their frame counts. -/
theorem MidiPlayer.play_processSeq (s : MidiPlayer) (events : List tml_message)
    (frames : List Int)
    (hne : events ≠ [])
    (hsorted : events.Pairwise (fun a b => a.time ≤ b.time))
    (hframes : ∀ f ∈ frames, 0 ≤ f)
    (hcalls : frames ≠ []) :
    (((s.load events).1.play.processSeq frames).2.map (fun r => r.consumed)).flatten =
        events.filter (fun m => Double.natLe m.time (clockAfter (Double.fin 0) frames)) ∧
      (((s.load events).1.play.processSeq frames).2.map (fun r => r.consumed)).flatten ++
        ((s.load events).1.play.processSeq frames).1.current_ = events ∧
      (((s.load events).1.play.processSeq frames).1.current_ ≠ [] →
        ((s.load events).1.play.processSeq frames).1.currentTime_ =
          clockAfter (Double.fin 0) frames) := by
  have hcur : (s.load events).1.play.current_ = events := by
    simp [MidiPlayer.load, MidiPlayer.play, hne]
  have hclk : (s.load events).1.play.currentTime_ = Double.fin 0 := by
    simp [MidiPlayer.load, MidiPlayer.play, hne]
  have hpl : (s.load events).1.play.playing_ = true := by
    simp [MidiPlayer.load, MidiPlayer.play, hne]
  generalize (s.load events).1.play = s0 at hcur hclk hpl ⊢
  have hzero : NonNegClock s0.currentTime_ := by
    rw [hclk]
    right
    refine ⟨0, rfl, ?_⟩
    simp [Representable, excessBits]
  obtain ⟨h1, _, _⟩ := MidiPlayer.processSeq_inv frames s0 [] hframes
    (by simpa [hcur] using hsorted) hzero (by simp) (Or.inl hpl)
  obtain ⟨c1, c2⟩ := MidiPlayer.processSeq_clock frames s0 hframes
    (by simpa [hcur] using hsorted) hzero (Or.inl hpl) (Or.inl hcalls)
  rw [hcur] at h1
  rw [hcur, hclk] at c1
  rw [hclk] at c2
  exact ⟨c1, h1, c2⟩

/-- C1 (amended): after `load` of a non-empty time-ordered sequence and `play()`,
for every non-empty list of non-negative frame counts `f1..fk` passed to
successive `process` calls, the messages consumed by those calls, concatenated
in call order, are exactly the messages whose timestamp is `<=` the `double`
running sum `((0.0 + f1 * m) + f2 * m) + ...` with `m = 1000.0 / 44100`, in
stored order, and the same holds after each of the calls for the frame counts
up to that call (so a message whose timestamp equals the running sum of a call
is consumed by that call); together with the messages still at the cursor the
consumed messages make up the sequence, so none is skipped and none is consumed
twice; the facade calls made are those of the consumed messages, in that order;
and as long as the sequence has not ended the playback clock `currentTime_` is
that running sum. -/
theorem C1_consumed_up_to_clock (s : MidiPlayer) (events : List tml_message)
    (frames : List Int)
    (hne : events ≠ [])
    (hsorted : events.Pairwise (fun a b => a.time ≤ b.time))
    (hframes : ∀ f ∈ frames, 0 ≤ f)
    (hcalls : frames ≠ []) :
    (((s.load events).1.play.processSeq frames).2.map (fun r => r.consumed)).flatten =
        events.filter (fun m => Double.natLe m.time (clockAfter (Double.fin 0) frames)) ∧
      (∀ j, 0 < j → j ≤ frames.length →
        ((((s.load events).1.play.processSeq frames).2.take j).map
            (fun r => r.consumed)).flatten =
          events.filter
            (fun m => Double.natLe m.time (clockAfter (Double.fin 0) (frames.take j)))) ∧
      (((s.load events).1.play.processSeq frames).2.map (fun r => r.consumed)).flatten ++
        ((s.load events).1.play.processSeq frames).1.current_ = events ∧
      (((s.load events).1.play.processSeq frames).2.map (fun r => r.calls)).flatten =
        (((((s.load events).1.play.processSeq frames).2.map
          (fun r => r.consumed)).flatten).map MidiPlayer.dispatch).flatten ∧
      (((s.load events).1.play.processSeq frames).1.current_ ≠ [] →
        ((s.load events).1.play.processSeq frames).1.currentTime_ =
          clockAfter (Double.fin 0) frames) := by
  obtain ⟨h1, h2, h3⟩ := MidiPlayer.play_processSeq s events frames hne hsorted hframes hcalls
  refine ⟨h1, ?_, h2, MidiPlayer.processSeq_calls frames _, h3⟩
  intro j hj hjl
  rw [MidiPlayer.processSeq_take]
  refine (MidiPlayer.play_processSeq s events (frames.take j) hne hsorted
    (fun f hf => hframes f (List.mem_of_mem_take hf)) ?_).1
  intro h
  have hlen := congrArg List.length h
  rw [List.length_take] at hlen
  simp only [List.length_nil] at hlen
  omega

/-- C1 witness: the scenario sequence and two calls `process(441)`, each
advancing the clock by exactly 10 ms: the running sum is 20 ms, the program
change (0 ms) and the note-on (10 ms) are consumed, the note-off (500 ms) is
still at the cursor, and the clock is the running sum. -/
theorem C1_consumed_up_to_clock_witness :
    (((MidiPlayer.init.load scenario).1.play.processSeq [441, 441]).2.map
        (fun r => r.consumed)).flatten =
      scenario.filter (fun m => Double.natLe m.time (clockAfter (Double.fin 0) [441, 441])) ∧
    clockAfter (Double.fin 0) [441, 441] = Double.fin (20 * 2 ^ 58) ∧
    (((MidiPlayer.init.load scenario).1.play.processSeq [441, 441]).2.map
        (fun r => r.consumed)).flatten = [programChangeAt 0 0 5, noteOnAt 10 0 60 100] ∧
    ((MidiPlayer.init.load scenario).1.play.processSeq [441, 441]).1.current_ =
      [noteOffAt 500 0 60] ∧
    ((MidiPlayer.init.load scenario).1.play.processSeq [441, 441]).1.currentTime_ =
      Double.fin (20 * 2 ^ 58) :=
  ⟨(C1_consumed_up_to_clock MidiPlayer.init scenario [441, 441] (by decide)
      (by decide) (by decide) (by decide)).1, by decide, by decide, by decide, by decide⟩

/-- C1 as stated fails: with one note-on at 10 ms, after `process(425)` and
`process(16)` the exact elapsed time is `441 * 1000 / 44100 = 10` ms, so the
message is due, but the `double` clock is `9.999999999999998` and nothing has
been consumed. -/
theorem C1_counterexample :
    dueExactly [noteOnAt 10 0 60 100] [425, 16] = [noteOnAt 10 0 60 100] ∧
      (((MidiPlayer.init.load [noteOnAt 10 0 60 100]).1.play.processSeq [425, 16]).2.map
        (fun r => r.consumed)).flatten = [] ∧
      ((MidiPlayer.init.load [noteOnAt 10 0 60 100]).1.play.processSeq [425, 16]).1.currentTime_ =
        Double.fin (10 * 2 ^ 58 - 512) := by
  decide

/-! ## Reachable player states -/

theorem MidiPlayer.processLoop_suffix (T : Double) (l : List tml_message) :
    (MidiPlayer.processLoop T l).current <:+ l :=
  ⟨_, MidiPlayer.processLoop_append T l⟩

theorem MidiPlayer.process_idle (s : MidiPlayer) (samples : Int)
    (h : s.playing_ = false ∨ s.current_ = []) :
    s.process samples = { player := s, calls := [], consumed := [] } := by
  unfold MidiPlayer.process; rw [if_pos h]

theorem MidiPlayer.process_active (s : MidiPlayer) (samples : Int)
    (h : ¬(s.playing_ = false ∨ s.current_ = [])) :
    (s.process samples).player.midi_ = s.midi_ ∧
      (s.process samples).player.current_ =
        (MidiPlayer.processLoop
          (Double.add s.currentTime_ (Double.scale samples (Double.div1000 sampleRate_)))
          s.current_).current ∧
      (s.process samples).player.currentTime_ =
        Double.add s.currentTime_ (Double.scale samples (Double.div1000 sampleRate_)) ∧
      (s.process samples).player.playing_ =
        (if (s.process samples).player.current_ = [] then false else s.playing_) ∧
      (s.process samples).player.finished_ =
        (if (s.process samples).player.current_ = [] then true else s.finished_) ∧
      (s.process samples).calls =
        (MidiPlayer.processLoop
          (Double.add s.currentTime_ (Double.scale samples (Double.div1000 sampleRate_)))
          s.current_).calls ∧
      (s.process samples).consumed =
        (MidiPlayer.processLoop
          (Double.add s.currentTime_ (Double.scale samples (Double.div1000 sampleRate_)))
          s.current_).consumed := by
  unfold MidiPlayer.process
  rw [if_neg h]
  simp only
  split_ifs with hend
  · simp [hend]
  · simp [hend]

theorem MidiPlayer.reachable_inv (s : MidiPlayer) (h : s.Reachable) :
    (s.playing_ = true → s.finished_ = false ∧ s.current_ ≠ []) ∧
      (s.midi_ ≠ [] → s.finished_ = false → s.current_ ≠ []) ∧
      (s.midi_ ≠ [] → s.current_ <:+ s.midi_) := by
  induction h with
  | init => simp [MidiPlayer.init]
  | @load s loaded _ ih =>
    obtain ⟨h1, h2, h3⟩ := ih
    by_cases hl : loaded = []
    · subst hl
      have : (s.load []).1.playing_ = s.playing_ ∧ (s.load []).1.finished_ = s.finished_ ∧
          (s.load []).1.current_ = s.current_ ∧ (s.load []).1.midi_ = [] := by
        unfold MidiPlayer.load; split_ifs <;> simp_all
      obtain ⟨e1, e2, e3, e4⟩ := this
      rw [e1, e2, e3, e4]
      exact ⟨h1, fun h => absurd rfl h, fun h => absurd rfl h⟩
    · have : (s.load loaded).1.finished_ = false ∧
          (s.load loaded).1.current_ = loaded ∧ (s.load loaded).1.midi_ = loaded := by
        unfold MidiPlayer.load; split_ifs <;> simp_all
      obtain ⟨e2, e3, e4⟩ := this
      rw [e2, e3, e4]
      exact ⟨fun _ => ⟨rfl, hl⟩, fun _ _ => hl, fun _ => List.suffix_refl _⟩
  | @play s _ ih =>
    obtain ⟨h1, h2, h3⟩ := ih
    unfold MidiPlayer.play
    split_ifs with hc
    · exact ⟨fun _ => ⟨hc.2, h2 hc.1 hc.2⟩, h2, h3⟩
    · exact ⟨h1, h2, h3⟩
  | @stop s _ ih =>
    obtain ⟨h1, h2, h3⟩ := ih
    exact ⟨fun h => by simp [MidiPlayer.stop] at h, h2, h3⟩
  | @reset s _ ih =>
    refine ⟨fun h => by simp [MidiPlayer.reset, MidiPlayer.stop] at h, ?_, ?_⟩
    · intro h _
      simpa [MidiPlayer.reset, MidiPlayer.stop] using h
    · intro _
      simp [MidiPlayer.reset, MidiPlayer.stop]
  | @process s samples _ ih =>
    obtain ⟨h1, h2, h3⟩ := ih
    by_cases hidle : s.playing_ = false ∨ s.current_ = []
    · rw [MidiPlayer.process_idle s samples hidle]
      exact ⟨h1, h2, h3⟩
    · obtain ⟨e1, e2, _, e4, e5, _, _⟩ := MidiPlayer.process_active s samples hidle
      have hp : s.playing_ = true := by
        by_contra hc
        exact hidle (Or.inl (by simpa using hc))
      rw [e4, e5, e1]
      by_cases hend : (s.process samples).player.current_ = []
      · rw [if_pos hend, if_pos hend]
        refine ⟨fun h => by simp at h, fun _ h => by simp at h, ?_⟩
        intro _
        rw [hend]
        exact List.nil_suffix
      · rw [if_neg hend, if_neg hend]
        refine ⟨fun _ => ⟨(h1 hp).1, hend⟩, fun _ _ => hend, ?_⟩
        intro hm
        rw [e2]
        exact (MidiPlayer.processLoop_suffix _ _).trans (h3 hm)

/-! ## C2 -/

theorem Double.round_of_nonpos (z : Int) (hz : z ≤ 0) :
    Double.round z = Double.negInf ∨ ∃ k : Int, k ≤ 0 ∧ Double.round z = Double.fin k := by
  unfold Double.round
  by_cases h0 : 0 ≤ z
  · have hz0 : z = 0 := le_antisymm hz h0
    subst hz0
    right
    exact ⟨0, le_rfl, by decide⟩
  · simp only [h0, if_false]
    split_ifs with h
    · right
      exact ⟨_, by omega, rfl⟩
    · left; rfl

theorem Double.round_of_nonneg (z : Int) (hz : 0 ≤ z) :
    Double.round z = Double.posInf ∨ Double.round z = Double.fin (roundNat 53 z.toNat) := by
  unfold Double.round
  simp only [hz, if_true]
  split_ifs with h
  · right; rfl
  · left; rfl

theorem roundNat_idem (p n : Nat) (hp : 0 < p) : roundNat p (roundNat p n) = roundNat p n :=
  roundNat_of_representable p _ hp (representable_roundNat p n hp)

/-- No multiple of `msPerSample` rounds to `5.0`: 220 frames stay below, 221 frames
are above. -/
theorem roundNat_frames_ne_five (m : Nat) :
    roundNat 53 (m * 6535836193916366) ≠ 5 * 2 ^ 58 := by
  rcases Nat.lt_or_ge m 221 with hlt | hge
  · have hle : m * 6535836193916366 ≤ 220 * 6535836193916366 :=
      Nat.mul_le_mul_right _ (by omega)
    have h1 : roundNat 53 (m * 6535836193916366) ≤ roundNat 53 (220 * 6535836193916366) := by
      rcases Nat.lt_or_ge m 220 with h219 | h220
      · apply roundNat_le 53 _ _ (representable_roundNat 53 _ (by norm_num))
        have h2 : m * 6535836193916366 ≤ 219 * 6535836193916366 :=
          Nat.mul_le_mul_right _ (by omega)
        have h3 : 219 * 6535836193916366 ≤ roundNat 53 (220 * 6535836193916366) := by decide
        exact le_trans h2 h3
      · have : m = 220 := by omega
        rw [this]
    have h4 : roundNat 53 (220 * 6535836193916366) < 5 * 2 ^ 58 := by decide
    omega
  · have h1 : roundNat 53 (221 * 6535836193916366) ≤ roundNat 53 (m * 6535836193916366) := by
      rcases Nat.lt_or_ge m 222 with h221 | h222
      · have : m = 221 := by omega
        rw [this]
      · apply le_roundNat 53 _ _ (by norm_num) (representable_roundNat 53 _ (by norm_num))
        have h2 : 222 * 6535836193916366 ≤ m * 6535836193916366 :=
          Nat.mul_le_mul_right _ h222
        have h3 : roundNat 53 (221 * 6535836193916366) ≤ 222 * 6535836193916366 := by decide
        exact le_trans h3 h2
    have h4 : 5 * 2 ^ 58 < roundNat 53 (221 * 6535836193916366) := by decide
    omega

theorem Double.advance_ne_five (n : Int) :
    Double.add (Double.fin 0) (Double.scale n (Double.div1000 sampleRate_)) ≠
      Double.fin (5 * 2 ^ 58) := by
  have hM : Double.div1000 sampleRate_ = Double.fin 6535836193916366 := by decide
  rw [hM]
  simp only [Double.scale]
  rcases lt_or_ge n 0 with hneg | hpos
  · have hz : n * 6535836193916366 ≤ 0 := by omega
    rcases Double.round_of_nonpos _ hz with h | ⟨k, hk, h⟩
    · rw [h]; simp [Double.add]
    · rw [h]
      simp only [Double.add]
      rcases Double.round_of_nonpos (0 + k) (by omega) with h' | ⟨k', hk', h'⟩
      · rw [h']; simp
      · rw [h']
        intro hc
        injection hc with hc
        have : (0 : Int) < 5 * 2 ^ 58 := by norm_num
        omega
  · have hz : 0 ≤ n * 6535836193916366 := by omega
    have hto : (n * 6535836193916366).toNat = n.toNat * 6535836193916366 := by omega
    rcases Double.round_of_nonneg _ hz with h | h
    · rw [h]; simp [Double.add]
    · rw [h, hto]
      simp only [Double.add]
      have hz2 : (0 : Int) ≤ 0 + ((roundNat 53 (n.toNat * 6535836193916366) : Nat) : Int) := by
        omega
      rcases Double.round_of_nonneg _ hz2 with h' | h'
      · rw [h']; simp
      · rw [h']
        have hto2 : (0 + ((roundNat 53 (n.toNat * 6535836193916366) : Nat) : Int)).toNat =
            roundNat 53 (n.toNat * 6535836193916366) := by omega
        rw [hto2, roundNat_idem 53 _ (by norm_num)]
        intro hc
        injection hc with hc
        have hne := roundNat_frames_ne_five n.toNat
        apply hne
        have h5 : ((5 * 2 ^ 58 : Nat) : Int) = 5 * 2 ^ 58 := by norm_num
        rw [← h5] at hc
        exact Int.ofNat_inj.1 hc

/-- C2 (amended): for every `process` call made while Playing (the player is
playing a loaded sequence), after the call `isFinished()` is true exactly when
the cursor has moved past the last event, and then `isPlaying()` is false;
otherwise the player is still playing and not finished.  In the scenario, with
calls `process(220)` (each advancing the clock by about 4.989 ms),
`programChange(0,5)` is issued by the 1st call, `noteOn(0,60,100/127.0f)` by the
3rd call, the first at which the clock has reached 10 ms, `noteOff(0,60)` by the
101st call, the first at which the clock has reached 500 ms, and the player is
finished right after that call and not before. -/
theorem C2_finished_iff_cursor_exhausted (s : MidiPlayer) (samples : Int)
    (hr : s.Reachable) (_hm : s.midi_ ≠ []) (hp : s.isPlaying = true) :
    (((s.process samples).player.isFinished = true ↔ (s.process samples).player.current_ = []) ∧
      ((s.process samples).player.isFinished = true →
        (s.process samples).player.isPlaying = false) ∧
      ((s.process samples).player.isFinished = false →
        (s.process samples).player.isPlaying = true)) ∧
    (((MidiPlayer.init.load scenario).1.play.processSeq (List.replicate 101 220)).2.map
        (fun r => r.calls) =
      [[FacadeCall.programChange 0 5], [], [FacadeCall.noteOn 0 60 (F32.divBy127 100)]] ++
        List.replicate 97 [] ++ [[FacadeCall.noteOff 0 60]]) ∧
    (((MidiPlayer.init.load scenario).1.play.processSeq (List.replicate 101 220)).2.map
        (fun r => Double.natLe 10 r.player.currentTime_) =
      [false, false] ++ List.replicate 99 true) ∧
    (((MidiPlayer.init.load scenario).1.play.processSeq (List.replicate 101 220)).2.map
        (fun r => Double.natLe 500 r.player.currentTime_) =
      List.replicate 100 false ++ [true]) ∧
    (((MidiPlayer.init.load scenario).1.play.processSeq (List.replicate 101 220)).2.map
        (fun r => (r.player.isPlaying, r.player.isFinished)) =
      List.replicate 100 (true, false) ++ [(false, true)]) := by
  refine ⟨?_, by decide, by decide, by decide, by decide⟩
  obtain ⟨h1, _, _⟩ := MidiPlayer.reachable_inv s hr
  have hp' : s.playing_ = true := hp
  obtain ⟨hfin, hcur⟩ := h1 hp'
  have hidle : ¬(s.playing_ = false ∨ s.current_ = []) := by
    rintro (h | h)
    · rw [hp'] at h; exact Bool.noConfusion h
    · exact hcur h
  obtain ⟨_, _, _, e4, e5, _, _⟩ := MidiPlayer.process_active s samples hidle
  simp only [MidiPlayer.isFinished, MidiPlayer.isPlaying]
  rw [e4, e5]
  by_cases hend : (s.process samples).player.current_ = []
  · simp [hend]
  · simp [hend, hfin, hp']

/-- C2 witness: the player that has loaded the scenario and was started. -/
theorem C2_finished_iff_cursor_exhausted_witness :
    (((MidiPlayer.init.load scenario).1.play.process 220).player.isFinished = true ↔
        ((MidiPlayer.init.load scenario).1.play.process 220).player.current_ = []) ∧
      (((MidiPlayer.init.load scenario).1.play.process 220).player.isFinished = true →
        ((MidiPlayer.init.load scenario).1.play.process 220).player.isPlaying = false) ∧
      (((MidiPlayer.init.load scenario).1.play.process 220).player.isFinished = false →
        ((MidiPlayer.init.load scenario).1.play.process 220).player.isPlaying = true) :=
  (C2_finished_iff_cursor_exhausted (MidiPlayer.init.load scenario).1.play 220
    (MidiPlayer.Reachable.play (MidiPlayer.Reachable.load scenario MidiPlayer.Reachable.init))
    (by decide) (by decide)).1

/-- C2 as stated cannot be run: no frame count makes the first `process` call of
the scenario advance the clock from 0 to exactly 5 ms (220 frames give about
4.989 ms, 221 frames about 5.011 ms). -/
theorem C2_counterexample :
    ¬ ∃ n : Int, ((MidiPlayer.init.load scenario).1.play.process n).player.currentTime_ =
      Double.fin (5 * 2 ^ 58) := by
  rintro ⟨n, hn⟩
  have hidle : ¬((MidiPlayer.init.load scenario).1.play.playing_ = false ∨
      (MidiPlayer.init.load scenario).1.play.current_ = []) := by decide
  obtain ⟨_, _, e3, _⟩ := MidiPlayer.process_active _ n hidle
  rw [e3] at hn
  have hclk : (MidiPlayer.init.load scenario).1.play.currentTime_ = Double.fin 0 := by decide
  rw [hclk] at hn
  exact Double.advance_ne_five n hn

/-! ## C3 -/

theorem MidiPlayer.load_ok (s : MidiPlayer) (events : List tml_message) (hne : events ≠ []) :
    s.load events =
      ({ midi_ := events, current_ := events, currentTime_ := Double.fin 0,
         playing_ := s.playing_, finished_ := false }, true) := by
  unfold MidiPlayer.load
  by_cases h : s.midi_ = [] <;> simp [h, hne]

/-- C3: for every non-empty sequence, `load` followed by `reset` gives clock 0,
the cursor at the first event, not playing and not finished, which is the state
`load` alone leaves when the player was not playing before; and `reset` in any
state that holds the loaded sequence gives that same Loaded state (issuing one
`allNotesOff`), so that a following `play()` and `process` calls run exactly as
after a fresh `load`. -/
theorem C3_reset_returns_to_loaded (s : MidiPlayer) (events : List tml_message)
    (hne : events ≠ []) :
    ((s.load events).2 = true ∧
      (s.load events).1.reset.1.currentTime_ = Double.fin 0 ∧
      (s.load events).1.reset.1.current_ = events ∧
      (s.load events).1.reset.1.midi_ = events ∧
      (s.load events).1.reset.1.isPlaying = false ∧
      (s.load events).1.reset.1.isFinished = false) ∧
    (s.isPlaying = false → (s.load events).1.reset.1 = (s.load events).1) ∧
    (∀ t : MidiPlayer, t.midi_ = events →
      t.reset.1 = (MidiPlayer.init.load events).1 ∧
      t.reset.1.currentTime_ = Double.fin 0 ∧
      t.reset.1.current_ = events ∧
      t.reset.1.isPlaying = false ∧
      t.reset.1.isFinished = false ∧
      t.reset.2 = [FacadeCall.allNotesOff] ∧
      t.reset.1.play.isPlaying = true ∧
      ∀ frames : List Int,
        t.reset.1.play.processSeq frames = (MidiPlayer.init.load events).1.play.processSeq frames) := by
  have hfresh : (MidiPlayer.init.load events).1 =
      { midi_ := events, current_ := events, currentTime_ := Double.fin 0,
        playing_ := false, finished_ := false } := by
    simp [MidiPlayer.load, MidiPlayer.init, hne]
  refine ⟨?_, ?_, ?_⟩
  · rw [MidiPlayer.load_ok s events hne]
    simp [MidiPlayer.reset, MidiPlayer.stop, MidiPlayer.isPlaying, MidiPlayer.isFinished]
  · intro hp
    have hp' : s.playing_ = false := hp
    rw [MidiPlayer.load_ok s events hne]
    simp [MidiPlayer.reset, MidiPlayer.stop, hp']
  · intro t ht
    have hreset : t.reset.1 = (MidiPlayer.init.load events).1 := by
      rw [hfresh]
      simp [MidiPlayer.reset, MidiPlayer.stop, ht]
    refine ⟨hreset, ?_, ?_, ?_, ?_, ?_, ?_, ?_⟩
    · simp [MidiPlayer.reset]
    · simp [MidiPlayer.reset, MidiPlayer.stop, ht]
    · simp [MidiPlayer.reset, MidiPlayer.stop, MidiPlayer.isPlaying]
    · simp [MidiPlayer.reset, MidiPlayer.isFinished]
    · simp [MidiPlayer.reset, MidiPlayer.stop]
    · simp [MidiPlayer.reset, MidiPlayer.stop, MidiPlayer.play, MidiPlayer.isPlaying, ht, hne]
    · intro frames
      rw [hreset]

/-- C3 witness: the scenario sequence, loaded into a fresh player. -/
theorem C3_reset_returns_to_loaded_witness :
    (MidiPlayer.init.load scenario).1.reset.1 = (MidiPlayer.init.load scenario).1 ∧
      ((MidiPlayer.init.load scenario).1.play.processSeq [441, 441]).1.reset.1 =
        (MidiPlayer.init.load scenario).1 :=
  ⟨(C3_reset_returns_to_loaded MidiPlayer.init scenario (by decide)).2.1 (by decide),
    ((C3_reset_returns_to_loaded MidiPlayer.init scenario (by decide)).2.2
      ((MidiPlayer.init.load scenario).1.play.processSeq [441, 441]).1 (by decide)).1⟩

/-! ## C4 -/

theorem MidiPlayer.processLoop_cons_calls (T : Double) (m m' : tml_message)
    (next : List tml_message) (ht : m.time = m'.time) (hd : dispatch m = dispatch m') :
    (processLoop T (m :: next)).calls = (processLoop T (m' :: next)).calls := by
  unfold processLoop
  rw [ht, hd]
  split_ifs <;> rfl

/-- C4: a note-on with velocity 0 and a note-off for the same channel and key
make the same facade calls, namely the single call `noteOff(c, k)`, both when
dispatched by `MidiPlayer::process` (whatever the player state, the messages
that follow and the frame count) and when received by `AlsaInput::inputLoop`
(whatever is received before and after); a note-on with velocity `v > 0` makes
the single call `noteOn(c, k, v / 127.0f)`. -/
theorem C4_zero_velocity_note_on_is_note_off (c k v : Int) (hv : 0 < v) :
    (∀ (mOn mOff : tml_message),
      mOn.type = .TML_NOTE_ON → mOn.velocity = 0 → mOff.type = .TML_NOTE_OFF →
      mOn.channel = c → mOn.key = k → mOff.channel = c → mOff.key = k →
      MidiPlayer.dispatch mOn = [FacadeCall.noteOff c k] ∧
      MidiPlayer.dispatch mOff = [FacadeCall.noteOff c k] ∧
      (mOn.time = mOff.time → ∀ (s : MidiPlayer) (next : List tml_message) (samples : Int),
        (MidiPlayer.process { s with current_ := mOn :: next } samples).calls =
          (MidiPlayer.process { s with current_ := mOff :: next } samples).calls)) ∧
    (∀ (mOn : tml_message), mOn.type = .TML_NOTE_ON → mOn.velocity = v →
      mOn.channel = c → mOn.key = k →
      MidiPlayer.dispatch mOn = [FacadeCall.noteOn c k (F32.divBy127 v)]) ∧
    (∀ (mOn mOff : snd_seq_event_t),
      mOn.type = .SND_SEQ_EVENT_NOTEON → mOn.data.note.velocity = 0 →
      mOff.type = .SND_SEQ_EVENT_NOTEOFF →
      mOn.data.note.channel = c → mOn.data.note.note = k →
      mOff.data.note.channel = c → mOff.data.note.note = k →
      AlsaInput.inputLoop [SeqInput.event mOn] = [FacadeCall.noteOff c k] ∧
      AlsaInput.inputLoop [SeqInput.event mOff] = [FacadeCall.noteOff c k] ∧
      ∀ (before : List snd_seq_event_t) (after : List SeqInput),
        AlsaInput.inputLoop (before.map SeqInput.event ++ SeqInput.event mOn :: after) =
          AlsaInput.inputLoop (before.map SeqInput.event ++ SeqInput.event mOff :: after)) ∧
    (∀ (mOn : snd_seq_event_t), mOn.type = .SND_SEQ_EVENT_NOTEON → mOn.data.note.velocity = v →
      mOn.data.note.channel = c → mOn.data.note.note = k →
      AlsaInput.inputLoop [SeqInput.event mOn] = [FacadeCall.noteOn c k (F32.divBy127 v)]) := by
  refine ⟨?_, ?_, ?_, ?_⟩
  · intro mOn mOff h1 h2 h3 h4 h5 h6 h7
    have hon : MidiPlayer.dispatch mOn = [FacadeCall.noteOff c k] := by
      simp [MidiPlayer.dispatch, h1, h2, h4, h5]
    have hoff : MidiPlayer.dispatch mOff = [FacadeCall.noteOff c k] := by
      simp [MidiPlayer.dispatch, h3, h6, h7]
    refine ⟨hon, hoff, ?_⟩
    intro ht s next samples
    unfold MidiPlayer.process
    by_cases hp : s.playing_ = false
    · simp [hp]
    · simp only [hp, List.cons_ne_nil, or_self, if_false]
      exact MidiPlayer.processLoop_cons_calls _ mOn mOff next ht (hon.trans hoff.symm)
  · intro mOn h1 h2 h3 h4
    simp [MidiPlayer.dispatch, h1, h2, h3, h4, hv]
  · intro mOn mOff h1 h2 h3 h4 h5 h6 h7
    have hon : AlsaInput.handleEvent mOn = [FacadeCall.noteOff c k] := by
      simp [AlsaInput.handleEvent, h1, h2, h4, h5]
    have hoff : AlsaInput.handleEvent mOff = [FacadeCall.noteOff c k] := by
      simp [AlsaInput.handleEvent, h3, h6, h7]
    refine ⟨by simp [AlsaInput.inputLoop, hon], by simp [AlsaInput.inputLoop, hoff], ?_⟩
    intro before after
    induction before with
    | nil => simp [AlsaInput.inputLoop, hon, hoff]
    | cons b bs ih => simp [AlsaInput.inputLoop, ih]
  · intro mOn h1 h2 h3 h4
    simp [AlsaInput.inputLoop, AlsaInput.handleEvent, h1, h2, h3, h4, hv]

/-- C4 witness: channel 0, key 60, velocity 100. -/
theorem C4_zero_velocity_note_on_is_note_off_witness :
    MidiPlayer.dispatch (noteOnAt 10 0 60 0) = [FacadeCall.noteOff 0 60] ∧
      MidiPlayer.dispatch (noteOffAt 10 0 60) = [FacadeCall.noteOff 0 60] ∧
      MidiPlayer.dispatch (noteOnAt 10 0 60 100) =
        [FacadeCall.noteOn 0 60 (F32.divBy127 100)] :=
  ⟨((C4_zero_velocity_note_on_is_note_off 0 60 100 (by decide)).1
      (noteOnAt 10 0 60 0) (noteOffAt 10 0 60) rfl rfl rfl rfl rfl rfl rfl).1,
    ((C4_zero_velocity_note_on_is_note_off 0 60 100 (by decide)).1
      (noteOnAt 10 0 60 0) (noteOffAt 10 0 60) rfl rfl rfl rfl rfl rfl rfl).2.1,
    (C4_zero_velocity_note_on_is_note_off 0 60 100 (by decide)).2.1
      (noteOnAt 10 0 60 100) rfl rfl rfl rfl⟩

/-! ## Reading words and integers from a command line -/

theorem digit_char (d : Nat) (hd : d < 10) :
    (Char.ofNat (d + 48)).isDigit = true ∧ digitValue (Char.ofNat (d + 48)) = d := by
  interval_cases d <;> decide

theorem decimalDigits_isDigit (fuel : Nat) :
    ∀ n, ∀ c ∈ decimalDigits fuel n, c.isDigit = true := by
  induction fuel with
  | zero => intro n c hc; simp [decimalDigits] at hc
  | succ f ih =>
    intro n c hc
    unfold decimalDigits at hc
    split_ifs at hc with h
    · simp only [List.mem_singleton] at hc
      rw [hc]
      exact (digit_char n h).1
    · rcases List.mem_append.1 hc with h1 | h1
      · exact ih _ c h1
      · simp only [List.mem_singleton] at h1
        rw [h1]
        exact (digit_char (n % 10) (Nat.mod_lt _ (by norm_num))).1

theorem decimalDigits_ne_nil (fuel n : Nat) : decimalDigits (fuel + 1) n ≠ [] := by
  unfold decimalDigits
  split_ifs <;> simp

theorem decimalDigits_value (fuel : Nat) :
    ∀ n, n < fuel →
      (decimalDigits fuel n).foldl (fun a c => 10 * a + digitValue c) 0 = n := by
  induction fuel with
  | zero => intro n h; omega
  | succ f ih =>
    intro n hn
    unfold decimalDigits
    split_ifs with h
    · simp [(digit_char n h).2]
    · rw [List.foldl_append, ih (n / 10) (by omega)]
      simp only [List.foldl_cons, List.foldl_nil]
      rw [(digit_char (n % 10) (Nat.mod_lt _ (by norm_num))).2]
      omega

theorem takeWhile_isDigit_append (ds rest : List Char) (hds : ∀ c ∈ ds, c.isDigit = true)
    (hrest : NoDigitAhead rest) :
    (ds ++ rest).takeWhile Char.isDigit = ds ∧ (ds ++ rest).dropWhile Char.isDigit = rest := by
  rw [List.takeWhile_append_of_pos hds, List.dropWhile_append_of_pos hds]
  cases rest with
  | nil => simp
  | cons c t =>
    have hc : c.isDigit = false := hrest c (by simp)
    simp [List.takeWhile, List.dropWhile, hc]

theorem isDigit_not_special (c : Char) (h : c.isDigit = true) :
    isspace c = false ∧ c ≠ '-' ∧ c ≠ '+' := by
  refine ⟨?_, ?_, ?_⟩
  · cases hs : isspace c
    · rfl
    · exfalso
      simp only [isspace, Bool.or_eq_true, decide_eq_true_eq] at hs
      rcases hs with ((((hs | hs) | hs) | hs) | hs) | hs <;> rw [hs] at h <;> exact absurd h (by decide)
  · rintro rfl; exact absurd h (by decide)
  · rintro rfl; exact absurd h (by decide)

theorem extractInt_digits (ds rest : List Char) (hds : ∀ c ∈ ds, c.isDigit = true)
    (hne : ds ≠ []) (hrest : NoDigitAhead rest)
    (hmax : ((ds.foldl (fun a c => 10 * a + digitValue c) 0 : Nat) : Int) ≤ INT_MAX) :
    extractInt (' ' :: (ds ++ rest)) =
      some (((ds.foldl (fun a c => 10 * a + digitValue c) 0 : Nat) : Int), rest) := by
  obtain ⟨ht, hdrop⟩ := takeWhile_isDigit_append ds rest hds hrest
  have hmin : INT_MIN ≤ ((ds.foldl (fun a c => 10 * a + digitValue c) 0 : Nat) : Int) := by
    have : (0 : Int) ≤ ((ds.foldl (fun a c => 10 * a + digitValue c) 0 : Nat) : Int) :=
      Int.ofNat_nonneg _
    unfold INT_MIN; omega
  obtain ⟨d, ds', rfl⟩ := List.exists_cons_of_ne_nil hne
  have hd : d.isDigit = true := hds d (by simp)
  obtain ⟨h1, h2, h3⟩ := isDigit_not_special d hd
  have hsp : isspace ' ' = true := by decide
  have hskip : (' ' :: (d :: ds' ++ rest)).dropWhile isspace = d :: ds' ++ rest := by
    rw [List.cons_append, List.dropWhile_cons_of_pos hsp,
      List.dropWhile_cons_of_neg (by simp [h1])]
  have hhead : (d :: ds' ++ rest).head? = some d := rfl
  have hsign : ¬((d :: ds' ++ rest).head? = some '-' ∨ (d :: ds' ++ rest).head? = some '+') := by
    rw [hhead]
    simp [h2, h3]
  have hneg : decide ((d :: ds' ++ rest).head? = some '-') = false := by
    rw [hhead]
    simp [h2]
  unfold extractInt
  simp only [hskip, if_neg hsign, hneg, ht, hdrop]
  rw [if_neg hne]
  simp only [Bool.false_eq_true, if_false]
  rw [if_pos ⟨hmin, hmax⟩]

theorem extractInt_minus_digits (ds rest : List Char) (hds : ∀ c ∈ ds, c.isDigit = true)
    (hne : ds ≠ []) (hrest : NoDigitAhead rest)
    (hmin : INT_MIN ≤ -((ds.foldl (fun a c => 10 * a + digitValue c) 0 : Nat) : Int)) :
    extractInt (' ' :: ('-' :: (ds ++ rest))) =
      some (-((ds.foldl (fun a c => 10 * a + digitValue c) 0 : Nat) : Int), rest) := by
  obtain ⟨ht, hdrop⟩ := takeWhile_isDigit_append ds rest hds hrest
  have hmax : -((ds.foldl (fun a c => 10 * a + digitValue c) 0 : Nat) : Int) ≤ INT_MAX := by
    have : (0 : Int) ≤ ((ds.foldl (fun a c => 10 * a + digitValue c) 0 : Nat) : Int) :=
      Int.ofNat_nonneg _
    unfold INT_MAX; omega
  have hsp : isspace ' ' = true := by decide
  have hsm : ¬(isspace '-' = true) := by decide
  have hskip : (' ' :: ('-' :: (ds ++ rest))).dropWhile isspace = '-' :: (ds ++ rest) := by
    rw [List.dropWhile_cons_of_pos hsp, List.dropWhile_cons_of_neg hsm]
  have hhead : ('-' :: (ds ++ rest)).head? = some '-' := rfl
  unfold extractInt
  simp only [hskip, hhead, true_or, if_true, List.tail_cons, ht, hdrop, hne, if_false,
    decide_True]
  rw [if_pos ⟨hmin, hmax⟩]

/-- Reading back a decimal numeral: `iss >> value` on `" " ++ decimal z ++ rest`
yields `z` and leaves `rest`, for every `int` value `z`. -/
theorem extractInt_decimal (z : Int) (hz : INT_MIN ≤ z ∧ z ≤ INT_MAX) (rest : List Char)
    (hrest : NoDigitAhead rest) :
    extractInt (' ' :: ((decimal z).data ++ rest)) = some (z, rest) := by
  unfold decimal
  by_cases hneg : z < 0
  · simp only [hneg, if_true, List.cons_append]
    have hv := decimalDigits_value ((-z).toNat + 1) (-z).toNat (by omega)
    have h := extractInt_minus_digits (decimalDigits ((-z).toNat + 1) (-z).toNat) rest
      (decimalDigits_isDigit _ _) (decimalDigits_ne_nil _ _) hrest
      (by rw [hv]; have := hz.1; omega)
    rw [h, hv]
    congr 2
    omega
  · simp only [hneg, if_false]
    have hv := decimalDigits_value (z.toNat + 1) z.toNat (by omega)
    have h := extractInt_digits (decimalDigits (z.toNat + 1) z.toNat) rest
      (decimalDigits_isDigit _ _) (decimalDigits_ne_nil _ _) hrest
      (by rw [hv]; have := hz.2; omega)
    rw [h, hv]
    congr 2
    omega

theorem extractWord_of_startsWithVerb (line verb rest : List Char)
    (h : StartsWithVerb line verb rest) :
    line ≠ [] ∧ extractWord line = (verb, rest) := by
  obtain ⟨pre, rfl, hpre, hne, hverb, hrest⟩ := h
  constructor
  · simp [hne]
  · have hdrop : (pre ++ verb ++ rest).dropWhile isspace = verb ++ rest := by
      rw [List.append_assoc, List.dropWhile_append_of_pos hpre]
      obtain ⟨c, t, rfl⟩ := List.exists_cons_of_ne_nil hne
      rw [List.cons_append, List.dropWhile_cons_of_neg]
      simp [hverb c (by simp)]
    have hverb' : ∀ c ∈ verb, (!isspace c) = true := by
      intro c hc; simp [hverb c hc]
    unfold extractWord
    simp only [hdrop]
    rw [List.takeWhile_append_of_pos hverb', List.dropWhile_append_of_pos hverb']
    cases rest with
    | nil => simp
    | cons c t =>
      have hc : isspace c = true := hrest c (by simp)
      simp [List.takeWhile, List.dropWhile, hc]

theorem startsWithVerb_of_extractWord (line : List Char) (h : (extractWord line).1 ≠ []) :
    StartsWithVerb line (extractWord line).1 (extractWord line).2 := by
  refine ⟨line.takeWhile isspace, ?_, ?_, h, ?_, ?_⟩
  · unfold extractWord
    simp only
    rw [List.append_assoc, List.takeWhile_append_dropWhile, List.takeWhile_append_dropWhile]
  · intro c hc
    exact List.mem_takeWhile_imp hc
  · intro c hc
    have := List.mem_takeWhile_imp hc
    simpa using this
  · intro c hc
    unfold extractWord at hc
    simp only [Option.mem_def] at hc
    have := List.head?_dropWhile_not (fun c => !isspace c) (line.dropWhile isspace)
    rw [hc] at this
    simpa using this

theorem firstToken_unique (line v w : List Char) (hv : FirstToken line v)
    (hw : FirstToken line w) : v = w := by
  obtain ⟨r1, h1⟩ := hv
  obtain ⟨r2, h2⟩ := hw
  have e1 := (extractWord_of_startsWithVerb line v r1 h1).2
  have e2 := (extractWord_of_startsWithVerb line w r2 h2).2
  rw [e1] at e2
  exact (Prod.mk.inj e2).1

/-! ## The branches of `processCommand` -/

theorem processCommand_quit (line : String) (rest : List Char)
    (h : StartsWithVerb line.data "quit".data rest ∨ StartsWithVerb line.data "exit".data rest) :
    processCommand line = { result := false, calls := [], stderr := "" } := by
  rcases h with h | h
  · obtain ⟨hne, hw⟩ := extractWord_of_startsWithVerb _ _ _ h
    unfold processCommand
    rw [if_neg hne]
    simp [hw]
  · obtain ⟨hne, hw⟩ := extractWord_of_startsWithVerb _ _ _ h
    unfold processCommand
    rw [if_neg hne]
    simp [hw]

theorem processCommand_noteon (line : String) (rest : List Char)
    (h : StartsWithVerb line.data "noteon".data rest) :
    processCommand line =
      match extractInt3 rest with
      | some (channel, note, velocity) =>
        { result := true, calls := [FacadeCall.noteOn channel note (F32.divBy127 velocity)],
          stderr := "" }
      | none =>
        { result := true, calls := [], stderr := "Usage: noteon <channel> <note> <velocity>\n" } := by
  obtain ⟨hne, hw⟩ := extractWord_of_startsWithVerb _ _ _ h
  unfold processCommand
  rw [if_neg hne]
  simp [hw]

theorem processCommand_noteoff (line : String) (rest : List Char)
    (h : StartsWithVerb line.data "noteoff".data rest) :
    processCommand line =
      match extractInt2 rest with
      | some (channel, note) =>
        { result := true, calls := [FacadeCall.noteOff channel note], stderr := "" }
      | none => { result := true, calls := [], stderr := "Usage: noteoff <channel> <note>\n" } := by
  obtain ⟨hne, hw⟩ := extractWord_of_startsWithVerb _ _ _ h
  unfold processCommand
  rw [if_neg hne]
  simp [hw]

theorem processCommand_cc (line : String) (rest : List Char)
    (h : StartsWithVerb line.data "cc".data rest) :
    processCommand line =
      match extractInt3 rest with
      | some (channel, controller, value) =>
        { result := true, calls := [FacadeCall.controlChange channel controller value],
          stderr := "" }
      | none =>
        { result := true, calls := [], stderr := "Usage: cc <channel> <controller> <value>\n" } := by
  obtain ⟨hne, hw⟩ := extractWord_of_startsWithVerb _ _ _ h
  unfold processCommand
  rw [if_neg hne]
  simp [hw]

theorem processCommand_pc (line : String) (rest : List Char)
    (h : StartsWithVerb line.data "pc".data rest) :
    processCommand line =
      match extractInt2 rest with
      | some (channel, program) =>
        { result := true, calls := [FacadeCall.programChange channel program], stderr := "" }
      | none => { result := true, calls := [], stderr := "Usage: pc <channel> <program>\n" } := by
  obtain ⟨hne, hw⟩ := extractWord_of_startsWithVerb _ _ _ h
  unfold processCommand
  rw [if_neg hne]
  simp [hw]

theorem processCommand_pitch (line : String) (rest : List Char)
    (h : StartsWithVerb line.data "pitch".data rest) :
    processCommand line =
      match extractInt2 rest with
      | some (channel, value) =>
        { result := true, calls := [FacadeCall.pitchBend channel value], stderr := "" }
      | none => { result := true, calls := [], stderr := "Usage: pitch <channel> <value>\n" } := by
  obtain ⟨hne, hw⟩ := extractWord_of_startsWithVerb _ _ _ h
  unfold processCommand
  rw [if_neg hne]
  simp [hw]

theorem processCommand_panic (line : String) (rest : List Char)
    (h : StartsWithVerb line.data "panic".data rest) :
    processCommand line = { result := true, calls := [FacadeCall.allNotesOff], stderr := "" } := by
  obtain ⟨hne, hw⟩ := extractWord_of_startsWithVerb _ _ _ h
  unfold processCommand
  rw [if_neg hne]
  simp [hw]

/-- A line that is a verb followed by one blank and `rest`. -/
theorem startsWithVerb_blank (verb rest : List Char) (hne : verb ≠ [])
    (hverb : ∀ c ∈ verb, isspace c = false) :
    StartsWithVerb (verb ++ ' ' :: rest) verb (' ' :: rest) :=
  ⟨[], by simp, by simp, hne, hverb, by intro c hc; simp at hc; rw [← hc]; decide⟩

theorem extractInt2_decimal (a b : Int) (ha : INT_MIN ≤ a ∧ a ≤ INT_MAX)
    (hb : INT_MIN ≤ b ∧ b ≤ INT_MAX) (rest : List Char) (hrest : NoDigitAhead rest) :
    extractInt2 (' ' :: ((decimal a).data ++ ' ' :: ((decimal b).data ++ rest))) =
      some (a, b) := by
  unfold extractInt2
  rw [extractInt_decimal a ha _ (by intro c hc; simp at hc; rw [← hc]; decide)]
  simp only
  rw [extractInt_decimal b hb _ hrest]

theorem extractInt3_decimal (a b c : Int) (ha : INT_MIN ≤ a ∧ a ≤ INT_MAX)
    (hb : INT_MIN ≤ b ∧ b ≤ INT_MAX) (hc : INT_MIN ≤ c ∧ c ≤ INT_MAX)
    (rest : List Char) (hrest : NoDigitAhead rest) :
    extractInt3 (' ' :: ((decimal a).data ++ ' ' :: ((decimal b).data ++
      ' ' :: ((decimal c).data ++ rest)))) = some (a, b, c) := by
  unfold extractInt3
  rw [extractInt_decimal a ha _ (by intro c hc; simp at hc; rw [← hc]; decide)]
  simp only
  rw [extractInt2_decimal b c hb hc rest hrest]

/-! ## C5 -/

theorem line2_data (verb a b : String) :
    (verb ++ " " ++ a ++ " " ++ b).data = verb.data ++ ' ' :: (a.data ++ ' ' :: (b.data ++ [])) := by
  simp [String.data_append]

theorem line3_data (verb a b c : String) :
    (verb ++ " " ++ a ++ " " ++ b ++ " " ++ c).data =
      verb.data ++ ' ' :: (a.data ++ ' ' :: (b.data ++ ' ' :: (c.data ++ []))) := by
  simp [String.data_append]

theorem noDigitAhead_nil : NoDigitAhead [] := by
  intro c hc
  simp at hc

set_option maxRecDepth 100000 in
theorem F32.divBy127_midi_range (n : Fin 128) :
    0 ≤ (F32.divBy127 (n.val : Int)).k ∧ (F32.divBy127 (n.val : Int)).k ≤ 2 ^ 30 ∧
      |127 * (F32.divBy127 (n.val : Int)).k - (n.val : Int) * 2 ^ 30| ≤ 127 * 2 ^ 5 := by
  revert n
  decide

theorem F32.divBy127_velocity (b : Int) (h0 : 0 ≤ b) (h1 : b ≤ 127) :
    0 ≤ (F32.divBy127 b).toRat ∧ (F32.divBy127 b).toRat ≤ 1 ∧
      |(F32.divBy127 b).toRat - (b : ℚ) / 127| ≤ 1 / 2 ^ 25 := by
  obtain ⟨n, rfl⟩ := Int.eq_ofNat_of_zero_le h0
  have hn : n < 128 := by omega
  obtain ⟨k0, k1, k2⟩ := F32.divBy127_midi_range ⟨n, hn⟩
  simp only at k0 k1 k2
  generalize (F32.divBy127 (n : Int)) = x at k0 k1 k2 ⊢
  have q0 : (0 : ℚ) ≤ (x.k : ℚ) := by exact_mod_cast k0
  have q1 : (x.k : ℚ) ≤ 2 ^ 30 := by exact_mod_cast k1
  have q2 : |127 * (x.k : ℚ) - (n : ℚ) * 2 ^ 30| ≤ 127 * 2 ^ 5 := by exact_mod_cast k2
  have hu : ((F32.unit : Nat) : ℚ) = 2 ^ 30 := by norm_num [F32.unit]
  unfold F32.toRat
  rw [hu]
  refine ⟨by positivity, ?_, ?_⟩
  · rw [div_le_one (by positivity)]
    exact q1
  · have e : (x.k : ℚ) / 2 ^ 30 - ((n : Int) : ℚ) / 127 =
        (127 * (x.k : ℚ) - (n : ℚ) * 2 ^ 30) / (127 * 2 ^ 30) := by
      field_simp
      ring
    rw [e, abs_div, abs_of_pos (by positivity : (0 : ℚ) < 127 * 2 ^ 30),
      div_le_div_iff₀ (by positivity) (by positivity)]
    calc |127 * (x.k : ℚ) - (n : ℚ) * 2 ^ 30| * 2 ^ 25
        ≤ (127 * 2 ^ 5) * 2 ^ 25 := by
          exact mul_le_mul_of_nonneg_right q2 (by positivity)
      _ = 1 * (127 * 2 ^ 30) := by norm_num

/-- C5: every well-formed line of the live text protocol, written with `int`
arguments, makes `processCommand` return true and make exactly the one facade
call the protocol names; the velocity of `noteon` is `b / 127.0f`, which for
`0 <= b <= 127` lies in `[0, 1]` within `2^-25` of `b / 127`; the line
`"noteon 0 60 127"` makes exactly the call `noteOn(0, 60, 1.0)`. -/
theorem C5_wellformed_commands (ch a b : Int)
    (hch : INT_MIN ≤ ch ∧ ch ≤ INT_MAX) (ha : INT_MIN ≤ a ∧ a ≤ INT_MAX)
    (hb : INT_MIN ≤ b ∧ b ≤ INT_MAX) :
    processCommand ("noteon " ++ decimal ch ++ " " ++ decimal a ++ " " ++ decimal b) =
        { result := true, calls := [FacadeCall.noteOn ch a (F32.divBy127 b)], stderr := "" } ∧
      processCommand ("noteoff " ++ decimal ch ++ " " ++ decimal a) =
        { result := true, calls := [FacadeCall.noteOff ch a], stderr := "" } ∧
      processCommand ("cc " ++ decimal ch ++ " " ++ decimal a ++ " " ++ decimal b) =
        { result := true, calls := [FacadeCall.controlChange ch a b], stderr := "" } ∧
      processCommand ("pc " ++ decimal ch ++ " " ++ decimal a) =
        { result := true, calls := [FacadeCall.programChange ch a], stderr := "" } ∧
      processCommand ("pitch " ++ decimal ch ++ " " ++ decimal a) =
        { result := true, calls := [FacadeCall.pitchBend ch a], stderr := "" } ∧
      processCommand "panic" =
        { result := true, calls := [FacadeCall.allNotesOff], stderr := "" } ∧
      (0 ≤ b → b ≤ 127 →
        0 ≤ (F32.divBy127 b).toRat ∧ (F32.divBy127 b).toRat ≤ 1 ∧
          |(F32.divBy127 b).toRat - (b : ℚ) / 127| ≤ 1 / 2 ^ 25) ∧
      processCommand "noteon 0 60 127" =
        { result := true, calls := [FacadeCall.noteOn 0 60 (F32.mk (2 ^ 30))], stderr := "" } ∧
      (F32.mk (2 ^ 30)).toRat = 1 := by
  have h3 : ∀ (vs verb : String), verb.data ≠ [] → (∀ c ∈ verb.data, isspace c = false) →
      vs.data = verb.data ++ [' '] →
      StartsWithVerb (vs ++ decimal ch ++ " " ++ decimal a ++ " " ++ decimal b).data
        verb.data (' ' :: ((decimal ch).data ++ ' ' :: ((decimal a).data ++
          ' ' :: ((decimal b).data ++ [])))) := by
    intro vs verb h1 h2 hvs
    have : (vs ++ decimal ch ++ " " ++ decimal a ++ " " ++ decimal b).data =
        verb.data ++ ' ' :: ((decimal ch).data ++ ' ' :: ((decimal a).data ++
          ' ' :: ((decimal b).data ++ []))) := by
      simp [String.data_append, hvs]
    rw [this]
    exact startsWithVerb_blank _ _ h1 h2
  have h2 : ∀ (vs verb : String), verb.data ≠ [] → (∀ c ∈ verb.data, isspace c = false) →
      vs.data = verb.data ++ [' '] →
      StartsWithVerb (vs ++ decimal ch ++ " " ++ decimal a).data
        verb.data (' ' :: ((decimal ch).data ++ ' ' :: ((decimal a).data ++ []))) := by
    intro vs verb h1 h2 hvs
    have : (vs ++ decimal ch ++ " " ++ decimal a).data =
        verb.data ++ ' ' :: ((decimal ch).data ++ ' ' :: ((decimal a).data ++ [])) := by
      simp [String.data_append, hvs]
    rw [this]
    exact startsWithVerb_blank _ _ h1 h2
  have e3 := extractInt3_decimal ch a b hch ha hb [] noDigitAhead_nil
  have e2 := extractInt2_decimal ch a hch ha [] noDigitAhead_nil
  refine ⟨?_, ?_, ?_, ?_, ?_, by decide, F32.divBy127_velocity b, by decide, ?_⟩
  · rw [processCommand_noteon _ _ (h3 "noteon " "noteon" (by decide) (by decide) (by decide)), e3]
  · rw [processCommand_noteoff _ _ (h2 "noteoff " "noteoff" (by decide) (by decide) (by decide)), e2]
  · rw [processCommand_cc _ _ (h3 "cc " "cc" (by decide) (by decide) (by decide)), e3]
  · rw [processCommand_pc _ _ (h2 "pc " "pc" (by decide) (by decide) (by decide)), e2]
  · rw [processCommand_pitch _ _ (h2 "pitch " "pitch" (by decide) (by decide) (by decide)), e2]
  · norm_num [F32.toRat, F32.unit]

/-- C5 witness: channel 0, note 60, value 127. -/
theorem C5_wellformed_commands_witness :
    processCommand ("noteon " ++ decimal 0 ++ " " ++ decimal 60 ++ " " ++ decimal 127) =
        { result := true, calls := [FacadeCall.noteOn 0 60 (F32.divBy127 127)], stderr := "" } ∧
      "noteon " ++ decimal 0 ++ " " ++ decimal 60 ++ " " ++ decimal 127 = "noteon 0 60 127" ∧
      F32.divBy127 127 = F32.mk (2 ^ 30) :=
  ⟨(C5_wellformed_commands 0 60 127 (by decide) (by decide) (by decide)).1, by decide, by decide⟩

/-! ## C6 -/

theorem processCommand_result (line : String) :
    (processCommand line).result =
      !decide (line.data ≠ [] ∧ ((extractWord line.data).1 = "quit".data ∨
        (extractWord line.data).1 = "exit".data)) := by
  unfold processCommand
  by_cases h1 : line.data = []
  · simp [h1]
  · rw [if_neg h1]
    simp only
    by_cases hq : (extractWord line.data).1 = "quit".data ∨
        (extractWord line.data).1 = "exit".data
    · rw [if_pos hq]
      simp [h1, hq]
    · rw [if_neg hq]
      have hd : decide (line.data ≠ [] ∧ ((extractWord line.data).1 = "quit".data ∨
          (extractWord line.data).1 = "exit".data)) = false := by
        simp only [decide_eq_false_iff_not]
        exact fun h => hq h.2
      rw [hd]
      repeat' split
      all_goals rfl

theorem processCommand_quit_calls (line : String) (h : (processCommand line).result = false) :
    (processCommand line).calls = [] ∧ (processCommand line).stderr = "" := by
  rw [processCommand_result] at h
  simp only [Bool.not_eq_false', decide_eq_true_eq] at h
  unfold processCommand
  rw [if_neg h.1, if_pos h.2]
  exact ⟨rfl, rfl⟩

/-- C6: `processCommand` returns false exactly when the first
whitespace-delimited token of the line is `quit` or `exit`, and then it makes no
facade call; every other line, the empty line included, returns true. -/
theorem C6_false_iff_quit_or_exit (line : String) :
    ((processCommand line).result = false ↔
        FirstToken line.data "quit".data ∨ FirstToken line.data "exit".data) ∧
      ((processCommand line).result = false → (processCommand line).calls = []) ∧
      (¬(FirstToken line.data "quit".data ∨ FirstToken line.data "exit".data) →
        (processCommand line).result = true) ∧
      (processCommand "").result = true := by
  have hiff : (processCommand line).result = false ↔
      FirstToken line.data "quit".data ∨ FirstToken line.data "exit".data := by
    constructor
    · intro h
      rw [processCommand_result] at h
      simp only [Bool.not_eq_false', decide_eq_true_eq] at h
      obtain ⟨_, hq | hq⟩ := h
      · left
        have hne : (extractWord line.data).1 ≠ [] := by rw [hq]; decide
        exact ⟨_, hq ▸ startsWithVerb_of_extractWord line.data hne⟩
      · right
        have hne : (extractWord line.data).1 ≠ [] := by rw [hq]; decide
        exact ⟨_, hq ▸ startsWithVerb_of_extractWord line.data hne⟩
    · rintro (⟨rest, h⟩ | ⟨rest, h⟩)
      · rw [processCommand_quit line rest (Or.inl h)]
      · rw [processCommand_quit line rest (Or.inr h)]
  refine ⟨hiff, fun h => (processCommand_quit_calls line h).1, ?_, by decide⟩
  intro hn
  cases hr : (processCommand line).result
  · exact absurd (hiff.1 hr) hn
  · rfl

/-! ## C7 -/

theorem extractInt2_eq_readInts (iss : List Char) :
    extractInt2 iss =
      match readInts 2 iss with
      | some ([a, b], _) => some (a, b)
      | _ => none := by
  unfold extractInt2
  simp only [readInts]
  cases h1 : extractInt iss with
  | none => rfl
  | some p =>
    obtain ⟨a, r1⟩ := p
    simp only
    cases h2 : extractInt r1 with
    | none => rfl
    | some q => rfl

theorem extractInt3_eq_readInts (iss : List Char) :
    extractInt3 iss =
      match readInts 3 iss with
      | some ([a, b, c], _) => some (a, b, c)
      | _ => none := by
  unfold extractInt3 extractInt2
  simp only [readInts]
  cases h1 : extractInt iss with
  | none => rfl
  | some p =>
    obtain ⟨a, r1⟩ := p
    simp only
    cases h2 : extractInt r1 with
    | none => rfl
    | some q =>
      obtain ⟨b, r2⟩ := q
      simp only
      cases h3 : extractInt r2 with
      | none => rfl
      | some q3 => rfl

/-- A line that begins with an `int` numeral is read by `iss >> value` as that
numeral. -/
theorem extractInt_of_beginsWithInt (iss : List Char) (z : Int) (rest : List Char)
    (h : BeginsWithInt iss z rest) : extractInt iss = some (z, rest) := by
  obtain ⟨ws, sign, ds, rfl, hws, hsign, hne, hds, hrest, hz, hmin, hmax⟩ := h
  obtain ⟨ht, hdrop⟩ := takeWhile_isDigit_append ds rest hds hrest
  obtain ⟨d, ds', hd'⟩ := List.exists_cons_of_ne_nil hne
  have hd : d.isDigit = true := hds d (by rw [hd']; simp)
  obtain ⟨h1, h2, h3⟩ := isDigit_not_special d hd
  rcases hsign with rfl | rfl | rfl
  · have hskip : (ws ++ ([] ++ (ds ++ rest))).dropWhile isspace = ds ++ rest := by
      rw [List.nil_append, List.dropWhile_append_of_pos hws, hd', List.cons_append,
        List.dropWhile_cons_of_neg (by simp [h1])]
    have hhead : (ds ++ rest).head? = some d := by rw [hd']; rfl
    have hsign : ¬((ds ++ rest).head? = some '-' ∨ (ds ++ rest).head? = some '+') := by
      rw [hhead]; simp [h2, h3]
    have hneg : decide ((ds ++ rest).head? = some '-') = false := by
      rw [hhead]; simp [h2]
    have hz' : z = (decimalValue ds : Int) := by simpa using hz
    unfold extractInt
    simp only [hskip, if_neg hsign, hneg, ht, hdrop]
    rw [if_neg hne]
    simp only [Bool.false_eq_true, if_false]
    rw [hz'] at hmin hmax ⊢
    unfold decimalValue at hmin hmax ⊢
    rw [if_pos ⟨hmin, hmax⟩]
  · have hsm : ¬(isspace '-' = true) := by decide
    have hskip : (ws ++ (['-'] ++ (ds ++ rest))).dropWhile isspace = '-' :: (ds ++ rest) := by
      rw [List.dropWhile_append_of_pos hws, List.singleton_append,
        List.dropWhile_cons_of_neg hsm]
    have hhead : ('-' :: (ds ++ rest)).head? = some '-' := rfl
    have hz' : z = -(decimalValue ds : Int) := by simpa using hz
    unfold extractInt
    simp only [hskip, hhead, true_or, if_true, List.tail_cons, ht, hdrop, hne, if_false,
      decide_True]
    rw [hz'] at hmin hmax ⊢
    unfold decimalValue at hmin hmax ⊢
    rw [if_pos ⟨hmin, hmax⟩]
  · have hsm : ¬(isspace '+' = true) := by decide
    have hskip : (ws ++ (['+'] ++ (ds ++ rest))).dropWhile isspace = '+' :: (ds ++ rest) := by
      rw [List.dropWhile_append_of_pos hws, List.singleton_append,
        List.dropWhile_cons_of_neg hsm]
    have hhead : ('+' :: (ds ++ rest)).head? = some '+' := rfl
    have hneg : decide (some '+' = some '-') = false := by decide
    have hz' : z = (decimalValue ds : Int) := by
      rw [hz, if_neg (by decide)]
    unfold extractInt
    simp only [hskip, hhead, or_true, if_true, List.tail_cons, ht, hdrop, hne, if_false, hneg]
    simp only [Bool.false_eq_true, if_false]
    rw [hz'] at hmin hmax ⊢
    unfold decimalValue at hmin hmax ⊢
    rw [if_pos ⟨hmin, hmax⟩]

/-- What `iss >> value` reads is an `int` numeral the input begins with. -/
theorem beginsWithInt_of_extractInt (iss : List Char) (z : Int) (rest : List Char)
    (h : extractInt iss = some (z, rest)) : BeginsWithInt iss z rest := by
  have hsplit : iss = iss.takeWhile isspace ++ iss.dropWhile isspace :=
    (List.takeWhile_append_dropWhile isspace iss).symm
  have hws : ∀ c ∈ iss.takeWhile isspace, isspace c = true :=
    fun c hc => List.mem_takeWhile_imp hc
  unfold extractInt at h
  simp only at h
  generalize iss.dropWhile isspace = s0 at h hsplit
  generalize iss.takeWhile isspace = ws at hsplit hws
  have hnd : ∀ t : List Char, NoDigitAhead (t.dropWhile Char.isDigit) := by
    intro t c hc
    have := List.head?_dropWhile_not Char.isDigit t
    simp only [Option.mem_def] at hc
    rw [hc] at this
    simpa using this
  have hdig : ∀ t : List Char, ∀ c ∈ t.takeWhile Char.isDigit, c.isDigit = true :=
    fun t c hc => List.mem_takeWhile_imp hc
  by_cases hs : s0.head? = some '-' ∨ s0.head? = some '+'
  · rw [if_pos hs] at h
    obtain ⟨c, t, rfl⟩ : ∃ c t, s0 = c :: t := by
      cases s0 with
      | nil => simp at hs
      | cons c t => exact ⟨c, t, rfl⟩
    simp only [List.head?_cons, List.tail_cons, Option.some.injEq] at h hs
    by_cases hnil : t.takeWhile Char.isDigit = []
    · rw [if_pos hnil] at h; exact absurd h (by simp)
    · rw [if_neg hnil] at h
      split_ifs at h with hneg hrange hrange
      · simp only [Option.some.injEq, Prod.mk.injEq] at h
        have hc : c = '-' := by simpa using hneg
        refine ⟨ws, ['-'], t.takeWhile Char.isDigit, ?_, hws, Or.inr (Or.inl rfl), hnil,
          hdig t, ?_, ?_, ?_, ?_⟩
        · rw [hsplit, hc, ← h.2, List.singleton_append, List.takeWhile_append_dropWhile]
        · rw [← h.2]; exact hnd t
        · rw [← h.1]; simp [decimalValue]
        · rw [← h.1]; exact hrange.1
        · rw [← h.1]; exact hrange.2
      · simp only [Option.some.injEq, Prod.mk.injEq] at h
        have hc : c = '+' := by
          rcases hs with hs | hs
          · exact absurd (by simp [hs]) hneg
          · exact hs
        refine ⟨ws, ['+'], t.takeWhile Char.isDigit, ?_, hws, Or.inr (Or.inr rfl), hnil,
          hdig t, ?_, ?_, ?_, ?_⟩
        · rw [hsplit, hc, ← h.2, List.singleton_append, List.takeWhile_append_dropWhile]
        · rw [← h.2]; exact hnd t
        · rw [← h.1, if_neg (by decide)]; simp [decimalValue]
        · rw [← h.1]; exact hrange.1
        · rw [← h.1]; exact hrange.2
  · rw [if_neg hs] at h
    have hneg : decide (s0.head? = some '-') = false := by
      simp only [decide_eq_false_iff_not]
      exact fun hc => hs (Or.inl hc)
    rw [hneg] at h
    by_cases hnil : s0.takeWhile Char.isDigit = []
    · rw [if_pos hnil] at h; exact absurd h (by simp)
    · rw [if_neg hnil] at h
      simp only [Bool.false_eq_true, if_false] at h
      split_ifs at h with hrange
      simp only [Option.some.injEq, Prod.mk.injEq] at h
      refine ⟨ws, [], s0.takeWhile Char.isDigit, ?_, hws, Or.inl rfl, hnil, hdig s0,
        ?_, ?_, ?_, ?_⟩
      · rw [hsplit, ← h.2, List.nil_append, List.takeWhile_append_dropWhile]
      · rw [← h.2]; exact hnd s0
      · rw [← h.1]; simp [decimalValue]
      · rw [← h.1]; exact hrange.1
      · rw [← h.1]; exact hrange.2

/-- Reading `k` integers in a row succeeds exactly on an input that begins with
`k` `int` numerals, and leaves what follows them. -/
theorem beginsWithInts_iff_readInts (k : Nat) :
    ∀ iss rest : List Char,
      BeginsWithInts k iss rest ↔ ∃ args, readInts k iss = some (args, rest) := by
  induction k with
  | zero =>
    intro iss rest
    simp only [BeginsWithInts, readInts, Option.some.injEq, Prod.mk.injEq]
    constructor
    · intro h; exact ⟨[], rfl, h.symm⟩
    · rintro ⟨_, _, h⟩; exact h.symm
  | succ k ih =>
    intro iss rest
    simp only [BeginsWithInts]
    constructor
    · rintro ⟨z, mid, h1, h2⟩
      obtain ⟨args, ha⟩ := (ih mid rest).1 h2
      refine ⟨z :: args, ?_⟩
      rw [readInts, extractInt_of_beginsWithInt iss z mid h1]
      simp only
      rw [ha]
    · rintro ⟨args, h⟩
      rw [readInts] at h
      cases h1 : extractInt iss with
      | none => rw [h1] at h; simp at h
      | some p =>
        obtain ⟨a, r1⟩ := p
        rw [h1] at h
        simp only at h
        cases h2 : readInts k r1 with
        | none => rw [h2] at h; simp at h
        | some q =>
          obtain ⟨as, r2⟩ := q
          rw [h2] at h
          simp only [Option.some.injEq, Prod.mk.injEq] at h
          exact ⟨a, r1, beginsWithInt_of_extractInt iss a r1 h1,
            (ih r1 rest).2 ⟨as, by rw [h2, h.2]⟩⟩

/-- C8: a non-empty line whose first token is none of the verbs of the protocol
makes no facade call, is reported as an unknown command and returns true. -/
theorem C8_unknown_verb_ignored (line : String) (hne : line.data ≠ [])
    (h : ∀ v ∈ ["noteon", "noteoff", "cc", "pc", "pitch", "panic", "sleep", "quit", "exit"],
      ¬FirstToken line.data (String.data v)) :
    (processCommand line).result = true ∧ (processCommand line).calls = [] ∧
      (processCommand line).stderr =
        "Unknown command: " ++ String.mk (c_str (extractWord line.data).1) ++ "\n" := by
  have hv : ∀ v ∈ ["noteon", "noteoff", "cc", "pc", "pitch", "panic", "sleep", "quit", "exit"],
      String.data v ≠ [] → (extractWord line.data).1 ≠ String.data v := by
    intro v hv hnil hc
    apply h v hv
    have hne' : (extractWord line.data).1 ≠ [] := by rw [hc]; exact hnil
    exact ⟨_, hc ▸ startsWithVerb_of_extractWord line.data hne'⟩
  have h1 := hv "noteon" (by simp) (by decide)
  have h2 := hv "noteoff" (by simp) (by decide)
  have h3 := hv "cc" (by simp) (by decide)
  have h4 := hv "pc" (by simp) (by decide)
  have h5 := hv "pitch" (by simp) (by decide)
  have h6 := hv "panic" (by simp) (by decide)
  have h7 := hv "sleep" (by simp) (by decide)
  have h8 := hv "quit" (by simp) (by decide)
  have h9 := hv "exit" (by simp) (by decide)
  unfold processCommand
  rw [if_neg hne]
  simp only
  rw [if_neg (by rintro (hc | hc); exacts [h8 hc, h9 hc]), if_neg h1, if_neg h2, if_neg h3,
    if_neg h4, if_neg h5, if_neg h6, if_neg h7]
  exact ⟨rfl, rfl, rfl⟩

/-- C8 witness: the line `bogus 1`. -/
theorem C8_unknown_verb_ignored_witness :
    (processCommand "bogus 1").result = true ∧ (processCommand "bogus 1").calls = [] ∧
      (processCommand "bogus 1").stderr =
        "Unknown command: bogus\n" :=
  C8_unknown_verb_ignored "bogus 1" (by decide) (by
    intro v hv hc
    have hb : FirstToken "bogus 1".data "bogus".data :=
      ⟨_, startsWithVerb_blank "bogus".data "1".data (by decide) (by decide)⟩
    have hu := firstToken_unique _ _ _ hc hb
    clear hc hb
    revert v
    decide)

/-! ## C9 -/

/-- C9: pitch-bend values are passed through unchanged.  For every `int` `v` the
line `"pitch ch v"` makes exactly the facade call `pitchBend(ch, v)`; a
pitch-bend message of value `v` makes `MidiPlayer::process` call
`pitchBend(ch, v)`; and `Synthesizer::pitchBend(ch, v)` with an engine loaded
makes exactly the engine call `tsf_channel_set_pitchwheel(tsf_, ch, v)`.  The
line `"pitch 0 20000"` yields `pitchBend(0, 20000)`. -/
theorem C9_pitch_bend_passed_through (ch v : Int)
    (hch : INT_MIN ≤ ch ∧ ch ≤ INT_MAX) (hv : INT_MIN ≤ v ∧ v ≤ INT_MAX) :
    processCommand ("pitch " ++ decimal ch ++ " " ++ decimal v) =
        { result := true, calls := [FacadeCall.pitchBend ch v], stderr := "" } ∧
      (∀ m : tml_message, m.type = .TML_PITCH_BEND → m.channel = ch → m.pitch_bend = v →
        MidiPlayer.dispatch m = [FacadeCall.pitchBend ch v] ∧
        ∀ (s : MidiPlayer) (samples : Int), s.playing_ = true →
          Double.natLe m.time
            (Double.add s.currentTime_ (Double.scale samples (Double.div1000 sampleRate_))) = true →
          (MidiPlayer.process { s with current_ := [m] } samples).calls =
            [FacadeCall.pitchBend ch v]) ∧
      (∀ (s : Synthesizer) (f : Nat), s.tsf_ = some f →
        s.pitchBend ch v = [TsfCall.tsf_channel_set_pitchwheel f ch v]) ∧
      processCommand "pitch 0 20000" =
        { result := true, calls := [FacadeCall.pitchBend 0 20000], stderr := "" } := by
  refine ⟨?_, ?_, ?_, by decide⟩
  · have hl : (("pitch " : String) ++ decimal ch ++ " " ++ decimal v).data =
        "pitch".data ++ ' ' :: ((decimal ch).data ++ ' ' :: ((decimal v).data ++ [])) := by
      simp [String.data_append]
    rw [processCommand_pitch _ _
      (by rw [hl]; exact startsWithVerb_blank _ _ (by decide) (by decide)),
      extractInt2_decimal ch v hch hv [] noDigitAhead_nil]
  · intro m h1 h2 h3
    have hd : MidiPlayer.dispatch m = [FacadeCall.pitchBend ch v] := by
      simp [MidiPlayer.dispatch, h1, h2, h3]
    refine ⟨hd, ?_⟩
    intro s samples hp hle
    unfold MidiPlayer.process
    simp only [hp, List.cons_ne_nil, Bool.true_eq_false, or_self, if_false]
    simp [MidiPlayer.processLoop, hle, hd]
  · intro s f hs
    simp [Synthesizer.pitchBend, hs]

/-- C9 witness: channel 0, value 20000, outside `0..16383`. -/
theorem C9_pitch_bend_passed_through_witness :
    processCommand ("pitch " ++ decimal 0 ++ " " ++ decimal 20000) =
        { result := true, calls := [FacadeCall.pitchBend 0 20000], stderr := "" } ∧
      "pitch " ++ decimal 0 ++ " " ++ decimal 20000 = "pitch 0 20000" :=
  ⟨(C9_pitch_bend_passed_through 0 20000 (by decide) (by decide)).1, by decide⟩

/-! ## C10 -/

theorem AudioOutput.init_ok (s : AudioOutput) (callback : Bool) (ok : InitStep → Bool)
    (h : (s.init callback ok).2 = true) :
    (s.init callback ok).1.player = true ∧ (s.init callback ok).1.bufferQueue = true ∧
      (s.init callback ok).1.callback_ = callback := by
  cases h1 : ok .slCreateEngine
  · simp [AudioOutput.init, h1] at h
  cases h2 : ok .RealizeEngine
  · simp [AudioOutput.init, h1, h2] at h
  cases h3 : ok .GetInterfaceEngine
  · simp [AudioOutput.init, h1, h2, h3] at h
  cases h4 : ok .CreateOutputMix
  · simp [AudioOutput.init, h1, h2, h3, h4] at h
  cases h5 : ok .RealizeOutputMix
  · simp [AudioOutput.init, h1, h2, h3, h4, h5] at h
  cases h6 : ok .CreateAudioPlayer
  · simp [AudioOutput.init, h1, h2, h3, h4, h5, h6] at h
  cases h7 : ok .RealizePlayer
  · simp [AudioOutput.init, h1, h2, h3, h4, h5, h6, h7] at h
  cases h8 : ok .GetInterfacePlay
  · simp [AudioOutput.init, h1, h2, h3, h4, h5, h6, h7, h8] at h
  cases h9 : ok .GetInterfaceBufferQueue
  · simp [AudioOutput.init, h1, h2, h3, h4, h5, h6, h7, h8, h9] at h
  cases h10 : ok .RegisterCallback
  · simp [AudioOutput.init, h1, h2, h3, h4, h5, h6, h7, h8, h9, h10] at h
  simp [AudioOutput.init, h1, h2, h3, h4, h5, h6, h7, h8, h9, h10]

/-- C10: for every `AudioOutput` that `init` has set up successfully with a
fill function, `start()` invokes the fill function exactly `NUM_BUFFERS = 2`
times before it returns, for buffer 0 and then buffer 1, each time with frame
count `BUFFER_FRAMES`; each buffer is enqueued on the transport right after it
is filled, and playback is requested only after both are enqueued (whether or
not the transport then accepts the request). -/
theorem C10_start_prefills_all_buffers (s : AudioOutput) (ok : InitStep → Bool)
    (playOk : Bool) (hinit : (s.init true ok).2 = true) :
    ((s.init true ok).1.start playOk).2.2 =
        [AudioAction.callback 0 AudioOutput.BUFFER_FRAMES,
          AudioAction.Enqueue 0
            (AudioOutput.BUFFER_FRAMES * AudioOutput.CHANNELS * AudioOutput.sizeofInt16),
          AudioAction.callback 1 AudioOutput.BUFFER_FRAMES,
          AudioAction.Enqueue 1
            (AudioOutput.BUFFER_FRAMES * AudioOutput.CHANNELS * AudioOutput.sizeofInt16),
          AudioAction.SetPlayStatePlaying] ∧
      ((s.init true ok).1.start playOk).2.1 = playOk ∧
      AudioOutput.NUM_BUFFERS ≤
        ((((s.init true ok).1.start playOk).2.2.takeWhile
          (fun a => decide (a ≠ AudioAction.SetPlayStatePlaying))).filter
          AudioAction.isCallback).length := by
  obtain ⟨hp, hq, hc⟩ := AudioOutput.init_ok s true ok hinit
  have htrace : ((s.init true ok).1.start playOk).2.2 =
      [AudioAction.callback 0 AudioOutput.BUFFER_FRAMES,
        AudioAction.Enqueue 0
          (AudioOutput.BUFFER_FRAMES * AudioOutput.CHANNELS * AudioOutput.sizeofInt16),
        AudioAction.callback 1 AudioOutput.BUFFER_FRAMES,
        AudioAction.Enqueue 1
          (AudioOutput.BUFFER_FRAMES * AudioOutput.CHANNELS * AudioOutput.sizeofInt16),
        AudioAction.SetPlayStatePlaying] := by
    unfold AudioOutput.start
    cases playOk <;>
      simp [hp, hq, hc, AudioOutput.fillLoop, AudioOutput.fillBuffer, AudioOutput.NUM_BUFFERS]
  refine ⟨htrace, ?_, ?_⟩
  · unfold AudioOutput.start
    cases playOk <;> simp [hp, hq]
  · rw [htrace]
    decide

/-- C10 witness: a fresh object, every set-up step succeeds, playback accepted. -/
theorem C10_start_prefills_all_buffers_witness :
    (((AudioOutput.new.init true (fun _ => true)).1.start true).2.2.filter
        AudioAction.isCallback =
      [AudioAction.callback 0 1024, AudioAction.callback 1 1024]) ∧
      ((AudioOutput.new.init true (fun _ => true)).1.start true).2.1 = true :=
  ⟨by rw [(C10_start_prefills_all_buffers AudioOutput.new (fun _ => true) true (by decide)).1]
      decide,
    (C10_start_prefills_all_buffers AudioOutput.new (fun _ => true) true (by decide)).2.1⟩

/-! ## C11 -/

theorem AudioOutput.afterNotifications_fields (s : AudioOutput) (k : Nat) :
    (s.afterNotifications k).callback_ = s.callback_ ∧
      (s.afterNotifications k).bufferQueue = s.bufferQueue ∧
      (s.afterNotifications k).currentBuffer_ =
        (if k = 0 then s.currentBuffer_ else (s.currentBuffer_ + k) % AudioOutput.NUM_BUFFERS) := by
  induction k with
  | zero => simp [AudioOutput.afterNotifications]
  | succ k ih =>
    obtain ⟨h1, h2, h3⟩ := ih
    simp only [AudioOutput.afterNotifications, AudioOutput.onBufferComplete, h1, h2, h3]
    refine ⟨trivial, trivial, ?_⟩
    by_cases hk : k = 0
    · subst hk; simp
    · simp only [hk, if_false, Nat.succ_ne_zero]
      simp only [AudioOutput.NUM_BUFFERS]
      omega

/-- C11: for every `AudioOutput` that `init` has set up successfully (with or
without a fill function), after `start()` the `k`-th completion notification
(`k = 0, 1, 2, ...`) fills exactly one buffer, the one with index
`k mod NUM_BUFFERS` (with the fill function, or with zeros when none is stored),
and enqueues that buffer again; the current-buffer index is `k mod NUM_BUFFERS`
before the notification and always stays below `NUM_BUFFERS`. -/
theorem C11_round_robin_refill (s : AudioOutput) (callback : Bool) (ok : InitStep → Bool)
    (playOk : Bool) (k : Nat) (hinit : (s.init callback ok).2 = true) :
    (((s.init callback ok).1.start playOk).1.afterNotifications k).onBufferComplete.2 =
        [(if callback then
            AudioAction.callback (k % AudioOutput.NUM_BUFFERS) AudioOutput.BUFFER_FRAMES
          else
            AudioAction.memset (k % AudioOutput.NUM_BUFFERS)
              (AudioOutput.BUFFER_FRAMES * AudioOutput.CHANNELS * AudioOutput.sizeofInt16)),
          AudioAction.Enqueue (k % AudioOutput.NUM_BUFFERS)
            (AudioOutput.BUFFER_FRAMES * AudioOutput.CHANNELS * AudioOutput.sizeofInt16)] ∧
      (((s.init callback ok).1.start playOk).1.afterNotifications k).currentBuffer_ =
        k % AudioOutput.NUM_BUFFERS ∧
      (((s.init callback ok).1.start playOk).1.afterNotifications k).currentBuffer_ <
        AudioOutput.NUM_BUFFERS := by
  obtain ⟨hp, hq, hc⟩ := AudioOutput.init_ok s callback ok hinit
  generalize (s.init callback ok).1 = t at hp hq hc
  have hstart : (t.start playOk).1.currentBuffer_ = 0 ∧
      (t.start playOk).1.callback_ = callback ∧ (t.start playOk).1.bufferQueue = true := by
    unfold AudioOutput.start
    cases playOk <;> simp [hp, hq, hc]
  obtain ⟨h1, h2, h3⟩ := AudioOutput.afterNotifications_fields (t.start playOk).1 k
  have hcur : ((t.start playOk).1.afterNotifications k).currentBuffer_ =
      k % AudioOutput.NUM_BUFFERS := by
    rw [h3, hstart.1]
    by_cases hk : k = 0
    · subst hk; simp
    · simp [hk]
  refine ⟨?_, hcur, ?_⟩
  · simp only [AudioOutput.onBufferComplete, AudioOutput.fillBuffer, h1, h2, hstart.2.1,
      hstart.2.2, hcur]
    cases callback <;> simp
  · rw [hcur]
    exact Nat.mod_lt _ (by decide)

/-- C11 witness: a freshly initialised object with a fill function; the
notifications number 2 and 1 fill buffers 0 and 1. -/
theorem C11_round_robin_refill_witness :
    (((AudioOutput.new.init true (fun _ => true)).1.start true).1.afterNotifications
        2).onBufferComplete.2 =
      [AudioAction.callback 0 1024, AudioAction.Enqueue 0 4096] ∧
    (((AudioOutput.new.init true (fun _ => true)).1.start true).1.afterNotifications
        1).onBufferComplete.2 =
      [AudioAction.callback 1 1024, AudioAction.Enqueue 1 4096] ∧
    (((AudioOutput.new.init true (fun _ => true)).1.start true).1.afterNotifications
        2).currentBuffer_ = 0 :=
  ⟨(C11_round_robin_refill AudioOutput.new true (fun _ => true) true 2 (by decide)).1,
    by decide,
    (C11_round_robin_refill AudioOutput.new true (fun _ => true) true 2 (by decide)).2.1⟩

/-! ## C12 -/

/-- C12 (amended): for every frame count `n >= 0` whose double `n * 2` still is an
`int`, and every buffer of at least `2 * n` samples, `render(buffer, n)` with no
soundfont loaded does not fail and writes silence: the first `2 * n` samples
are `0`, the samples beyond them are unchanged and the buffer keeps its
length. -/
theorem C12_render_silence (s : Synthesizer) (buffer : List Int) (n : Int)
    (hs : s.isLoaded = false) (h0 : 0 ≤ n) (hmax : n * 2 ≤ INT_MAX)
    (hlen : n * 2 ≤ buffer.length) :
    s.render buffer n =
        RenderOutcome.written (List.replicate (2 * n.toNat) 0 ++ buffer.drop (2 * n.toNat)) ∧
      (List.replicate (2 * n.toNat) (0 : Int) ++ buffer.drop (2 * n.toNat)).length =
        buffer.length ∧
      (∀ i, i < 2 * n.toNat →
        (List.replicate (2 * n.toNat) (0 : Int) ++ buffer.drop (2 * n.toNat))[i]? = some 0) ∧
      (∀ i, 2 * n.toNat ≤ i →
        (List.replicate (2 * n.toNat) (0 : Int) ++ buffer.drop (2 * n.toNat))[i]? = buffer[i]?) := by
  obtain ⟨m, rfl⟩ := Int.eq_ofNat_of_zero_le h0
  have hm : m * 2 ≤ buffer.length := by exact_mod_cast hlen
  have hm2 : m * 2 ≤ 2147483647 := by
    unfold INT_MAX at hmax
    omega
  have htsf : s.tsf_ = none := by
    cases h : s.tsf_ with
    | none => rfl
    | some f => simp [Synthesizer.isLoaded, h] at hs
  refine ⟨?_, ?_, ?_, ?_⟩
  · unfold Synthesizer.render
    rw [htsf]
    simp only
    have hno : ¬((m : Int) * 2 < INT_MIN ∨ INT_MAX < (m : Int) * 2) := by
      unfold INT_MIN INT_MAX
      omega
    rw [if_neg hno]
    have hbytes : (((m : Int) * 2) % (2 ^ SIZE_BITS : Int)).toNat * AudioOutput.sizeofInt16 %
        2 ^ SIZE_BITS = 4 * m := by
      simp only [SIZE_BITS, AudioOutput.sizeofInt16]
      omega
    rw [hbytes]
    unfold memsetZero
    simp only [AudioOutput.sizeofInt16]
    rw [if_pos (by omega)]
    have hdiv : 4 * m / 2 = 2 * m := by omega
    simp [hdiv]
  · simp only [List.length_append, List.length_replicate, List.length_drop, Int.toNat_ofNat]
    omega
  · intro i hi
    rw [List.getElem?_append_left (by simpa using hi)]
    simp only [Int.toNat_ofNat] at hi
    simp [List.getElem?_replicate, hi]
  · intro i hi
    simp only [Int.toNat_ofNat] at hi ⊢
    rw [List.getElem?_append_right (by simpa using hi)]
    simp only [List.length_replicate, List.getElem?_drop]
    congr 1
    omega

/-- C12 witness: two frames on a buffer of six samples. -/
theorem C12_render_silence_witness :
    Synthesizer.new.render [1, 2, 3, 4, 5, 6] 2 = RenderOutcome.written [0, 0, 0, 0, 5, 6] :=
  (C12_render_silence Synthesizer.new [1, 2, 3, 4, 5, 6] 2 (by decide) (by decide) (by decide)
    (by decide)).1

theorem Synthesizer.render_overflow (buffer : List Int) :
    Synthesizer.new.render buffer (2 ^ 30) = RenderOutcome.undefined := by
  unfold Synthesizer.render
  have h : INT_MAX < (2 ^ 30 : Int) * 2 := by decide
  simp only [Synthesizer.new]
  rw [if_pos (Or.inr h)]

/-- C12 as stated fails: with `n = 2^30` frames the `int` product `frames * 2`
overflows, so the call has undefined behaviour even on a buffer that holds
`2 * n` samples. -/
theorem C12_counterexample :
    (0 : Int) ≤ 2 ^ 30 ∧ (List.replicate (2 * 2 ^ 30) (7 : Int)).length = 2 * 2 ^ 30 ∧
      Synthesizer.new.isLoaded = false ∧
      Synthesizer.new.render (List.replicate (2 * 2 ^ 30) 7) (2 ^ 30) =
        RenderOutcome.undefined :=
  ⟨by decide, List.length_replicate _ _, rfl, Synthesizer.render_overflow _⟩

/-! ## C13 -/

/-- C13: for every prior facade state, a `loadSoundFont` call whose underlying
load fails returns false and leaves no engine loaded, and one whose load
succeeds with engine `f` returns true and leaves exactly `f`, configured last
for stereo-interleaved output at the stored sample rate; in both cases a
previously loaded engine is closed first and the stored sample rate is kept. -/
theorem C13_loadSoundFont (s : Synthesizer) :
    ((s.loadSoundFont none).2.1 = false ∧
      (s.loadSoundFont none).1.isLoaded = false ∧
      (s.loadSoundFont none).1.tsf_ = none ∧
      (s.loadSoundFont none).1.sampleRate_ = s.sampleRate_ ∧
      (s.loadSoundFont none).2.2 =
        (match s.tsf_ with
          | some old => [TsfCall.tsf_close old]
          | none => [])) ∧
    (∀ f : Nat,
      (s.loadSoundFont (some f)).2.1 = true ∧
      (s.loadSoundFont (some f)).1.isLoaded = true ∧
      (s.loadSoundFont (some f)).1.tsf_ = some f ∧
      (s.loadSoundFont (some f)).1.sampleRate_ = s.sampleRate_ ∧
      (s.loadSoundFont (some f)).2.2 =
        (match s.tsf_ with
          | some old => [TsfCall.tsf_close old]
          | none => []) ++
        [TsfCall.tsf_set_output f TSFOutputMode.TSF_STEREO_INTERLEAVED s.sampleRate_]) := by
  refine ⟨?_, ?_⟩
  · simp [Synthesizer.loadSoundFont, Synthesizer.isLoaded]
  · intro f
    simp [Synthesizer.loadSoundFont, Synthesizer.isLoaded]

/-! ## C14 -/

/-- C14: for every player state, `stop()` sets `isPlaying()` to false, makes
exactly one facade call, `allNotesOff()`, and leaves the loaded sequence, the
cursor, the clock and the finished flag unchanged; so `stop()` followed by
`play()` on an unfinished loaded sequence gives the state with the same cursor
and clock and `isPlaying()` true, and when the player was playing before, that
is the state before `stop()`, from which every `process` call continues as if
`stop()` had not been called. -/
theorem C14_stop_keeps_position (s : MidiPlayer) :
    s.stop.1.isPlaying = false ∧
      s.stop.2 = [FacadeCall.allNotesOff] ∧
      s.stop.1.current_ = s.current_ ∧
      s.stop.1.currentTime_ = s.currentTime_ ∧
      s.stop.1.isFinished = s.isFinished ∧
      s.stop.1.midi_ = s.midi_ ∧
      (s.midi_ ≠ [] → s.isFinished = false →
        s.stop.1.play = { s with playing_ := true } ∧
        s.stop.1.play.isPlaying = true ∧
        s.stop.1.play.current_ = s.current_ ∧
        s.stop.1.play.currentTime_ = s.currentTime_ ∧
        (s.isPlaying = true →
          s.stop.1.play = s ∧ ∀ samples : Int, s.stop.1.play.process samples = s.process samples)) := by
  refine ⟨rfl, rfl, rfl, rfl, rfl, rfl, ?_⟩
  intro hm hf
  have hf' : s.finished_ = false := hf
  have hplay : s.stop.1.play = { s with playing_ := true } := by
    simp [MidiPlayer.stop, MidiPlayer.play, hm, hf']
  refine ⟨hplay, ?_, ?_, ?_, ?_⟩
  · rw [hplay]; rfl
  · rw [hplay]
  · rw [hplay]
  · intro hp
    have hp' : s.playing_ = true := hp
    have hs : s.stop.1.play = s := by
      rw [hplay]
      cases s
      simp_all
    exact ⟨hs, fun samples => by rw [hs]⟩

/-! ## C15 -/

/-- C15: `play()` sets `isPlaying()` exactly when a sequence is loaded and the
player is not finished, and then changes nothing else; when no sequence is
loaded or the player is finished it changes nothing at all; it never makes a
facade call. -/
theorem C15_play (s : MidiPlayer) :
    (s.midi_ ≠ [] ∧ s.isFinished = false → s.play = { s with playing_ := true }) ∧
      (¬(s.midi_ ≠ [] ∧ s.isFinished = false) → s.play = s) ∧
      (s.isPlaying = false →
        (s.play.isPlaying = true ↔ s.midi_ ≠ [] ∧ s.isFinished = false)) ∧
      s.play.midi_ = s.midi_ ∧
      s.play.current_ = s.current_ ∧
      s.play.currentTime_ = s.currentTime_ ∧
      s.play.isFinished = s.isFinished ∧
      (s.step MidiPlayer.Op.play).1 = s.play ∧
      (s.step MidiPlayer.Op.play).2 = [] := by
  have hyes : s.midi_ ≠ [] ∧ s.isFinished = false → s.play = { s with playing_ := true } := by
    intro h
    have h' : s.midi_ ≠ [] ∧ s.finished_ = false := h
    unfold MidiPlayer.play
    rw [if_pos h']
  have hno : ¬(s.midi_ ≠ [] ∧ s.isFinished = false) → s.play = s := by
    intro h
    have h' : ¬(s.midi_ ≠ [] ∧ s.finished_ = false) := h
    unfold MidiPlayer.play
    rw [if_neg h']
  refine ⟨hyes, hno, ?_, ?_, ?_, ?_, ?_, rfl, rfl⟩
  · intro hp
    constructor
    · intro h
      by_contra hc
      rw [hno hc, hp] at h
      exact Bool.false_ne_true h
    · intro h
      rw [hyes h]
      rfl
  all_goals
    by_cases h : s.midi_ ≠ [] ∧ s.isFinished = false
    · rw [hyes h] <;> rfl
    · rw [hno h]

/-! ## C16 -/

theorem representable_zero (p : Nat) : Representable p 0 := by
  simp [Representable]

theorem Double.round_wellFormed (z : Int) : Double.WellFormed (Double.round z) := by
  unfold Double.round
  by_cases h1 : 0 ≤ z
  · rw [if_pos h1]
    simp only
    by_cases h2 : roundNat 53 z.toNat < Double.overflowBound
    · rw [if_pos h2]
      exact ⟨by simpa using representable_roundNat 53 _ (by norm_num), by simpa using h2⟩
    · rw [if_neg h2]
      trivial
  · rw [if_neg h1]
    simp only
    by_cases h2 : roundNat 53 (-z).toNat < Double.overflowBound
    · rw [if_pos h2]
      exact ⟨by simpa using representable_roundNat 53 _ (by norm_num), by simpa using h2⟩
    · rw [if_neg h2]
      trivial

theorem Double.add_wellFormed (a b : Double) : Double.WellFormed (Double.add a b) := by
  cases a <;> cases b <;> first | exact Double.round_wellFormed _ | trivial

theorem MidiPlayer.reachable_wellFormed (s : MidiPlayer) (h : s.Reachable) :
    Double.WellFormed s.currentTime_ := by
  have hzero : Double.WellFormed (Double.fin 0) :=
    ⟨by simpa using representable_zero 53, by decide⟩
  induction h with
  | init => exact hzero
  | @load s loaded _ ih =>
    by_cases hl : loaded = []
    · have : (s.load loaded).1.currentTime_ = s.currentTime_ := by
        subst hl
        unfold MidiPlayer.load
        split_ifs <;> simp_all
      rw [this]; exact ih
    · rw [MidiPlayer.load_ok s loaded hl]; exact hzero
  | @play s _ ih =>
    unfold MidiPlayer.play
    split_ifs <;> exact ih
  | @stop s _ ih => exact ih
  | @reset s _ ih => exact hzero
  | @process s samples _ ih =>
    by_cases hidle : s.playing_ = false ∨ s.current_ = []
    · rw [MidiPlayer.process_idle s samples hidle]; exact ih
    · rw [(MidiPlayer.process_active s samples hidle).2.2.1]
      exact Double.add_wellFormed _ _

theorem Double.scale_of_nonneg (n : Int) (hn : 0 ≤ n) :
    Double.scale n (Double.div1000 sampleRate_) = Double.posInf ∨
      ∃ r : Nat, Double.scale n (Double.div1000 sampleRate_) = Double.fin r := by
  unfold Double.div1000 Double.scale
  rcases Double.round_of_nonneg _ (Int.mul_nonneg hn (Int.ofNat_nonneg _)) with h | h
  · left; exact h
  · right; exact ⟨_, h⟩

/-- Adding a non-negative increment never makes a `double` clock smaller. -/
theorem Double.add_not_lt (c p : Double) (hc : Double.WellFormed c)
    (hp : p = Double.posInf ∨ ∃ r : Nat, p = Double.fin r) :
    Double.lt (Double.add c p) c = false := by
  rcases hp with rfl | ⟨r, rfl⟩
  · cases c <;> rfl
  · cases c with
    | posInf => rfl
    | negInf => rfl
    | nan => rfl
    | fin k =>
      obtain ⟨hrep, hbound⟩ := hc
      simp only [Double.add]
      by_cases hs : 0 ≤ k + (r : Int)
      · rcases Double.round_of_nonneg _ hs with h | h
        · rw [h]; rfl
        · rw [h]
          simp only [Double.lt, decide_eq_false_iff_not, not_lt]
          by_cases hk : 0 ≤ k
          · have hk' : k.natAbs ≤ (k + (r : Int)).toNat := by omega
            have := le_roundNat 53 k.natAbs _ (by norm_num) hrep hk'
            omega
          · have : (0 : Int) ≤ (roundNat 53 (k + (r : Int)).toNat : Nat) := Int.ofNat_nonneg _
            omega
      · have hle : (-(k + (r : Int))).toNat ≤ k.natAbs := by omega
        have hr := roundNat_le 53 k.natAbs _ hrep hle
        unfold Double.round
        rw [if_neg hs]
        simp only
        rw [if_pos (lt_of_le_of_lt hr hbound)]
        simp only [Double.lt, decide_eq_false_iff_not, not_lt]
        omega

/-- C16 (amended): for every call `process(frameCount)` on a reachable player: if
the player is not playing, the player is unchanged and no facade call is made;
if it is playing a loaded sequence, the clock after the call is the `double`
value of `clock_before + frameCount * (1000.0 / 44100)`, whether or not an
event was dispatched; and for `frameCount >= 0` the clock after the call is
never smaller than the clock before it. -/
theorem C16_clock_advance (s : MidiPlayer) (samples : Int) (hr : s.Reachable) :
    (s.isPlaying = false →
        (s.process samples).player = s ∧ (s.process samples).calls = [] ∧
          (s.process samples).consumed = []) ∧
      (s.isPlaying = true → s.midi_ ≠ [] →
        (s.process samples).player.currentTime_ =
          Double.add s.currentTime_ (Double.scale samples (Double.div1000 sampleRate_))) ∧
      (0 ≤ samples →
        Double.lt (s.process samples).player.currentTime_ s.currentTime_ = false) := by
  have hwf := MidiPlayer.reachable_wellFormed s hr
  refine ⟨?_, ?_, ?_⟩
  · intro hp
    rw [MidiPlayer.process_idle s samples (Or.inl hp)]
    exact ⟨rfl, rfl, rfl⟩
  · intro hp _
    have hp' : s.playing_ = true := hp
    have hcur := ((MidiPlayer.reachable_inv s hr).1 hp').2
    have hidle : ¬(s.playing_ = false ∨ s.current_ = []) := by
      rintro (h | h)
      · rw [hp'] at h; exact Bool.noConfusion h
      · exact hcur h
    exact (MidiPlayer.process_active s samples hidle).2.2.1
  · intro hn
    by_cases hidle : s.playing_ = false ∨ s.current_ = []
    · rw [MidiPlayer.process_idle s samples hidle]
      cases hc : s.currentTime_ <;> simp [Double.lt]
    · rw [(MidiPlayer.process_active s samples hidle).2.2.1]
      exact Double.add_not_lt _ _ hwf (Double.scale_of_nonneg samples hn)

/-- C16 witness: the scenario player after one `process(441)`, called again with
441 frames: the clock goes from 10 ms to 20 ms. -/
theorem C16_clock_advance_witness :
    (((MidiPlayer.init.load scenario).1.play.process 441).player.process 441).player.currentTime_ =
        Double.add ((MidiPlayer.init.load scenario).1.play.process 441).player.currentTime_
          (Double.scale 441 (Double.div1000 sampleRate_)) ∧
      ((MidiPlayer.init.load scenario).1.play.process 441).player.currentTime_ =
        Double.fin (10 * 2 ^ 58) ∧
      (((MidiPlayer.init.load scenario).1.play.process 441).player.process 441).player.currentTime_ =
        Double.fin (20 * 2 ^ 58) :=
  ⟨(C16_clock_advance ((MidiPlayer.init.load scenario).1.play.process 441).player 441
      (MidiPlayer.Reachable.process 441
        (MidiPlayer.Reachable.play (MidiPlayer.Reachable.load scenario MidiPlayer.Reachable.init)))).2.1
      (by decide) (by decide),
    by decide, by decide⟩

/-- C16 as stated fails: on the scenario player after one `process(441)` (playing,
clock 10 ms) the call `process(-441)` brings the clock back to 0 ms; and after a
first `process(1)` the clock is the `double` nearest to `1000/44100`, not that
number. -/
theorem C16_counterexample :
    ((MidiPlayer.init.load scenario).1.play.process 441).player.isPlaying = true ∧
      ((MidiPlayer.init.load scenario).1.play.process 441).player.currentTime_ =
        Double.fin (10 * 2 ^ 58) ∧
      (((MidiPlayer.init.load scenario).1.play.process 441).player.process (-441)).player.currentTime_ =
        Double.fin 0 ∧
      Double.lt
        (((MidiPlayer.init.load scenario).1.play.process 441).player.process (-441)).player.currentTime_
        ((MidiPlayer.init.load scenario).1.play.process 441).player.currentTime_ = true ∧
      Double.toRat ((MidiPlayer.init.load scenario).1.play.process 1).player.currentTime_ ≠
        some (1000 / 44100) := by
  refine ⟨by decide, by decide, by decide, by decide, ?_⟩
  have h : ((MidiPlayer.init.load scenario).1.play.process 1).player.currentTime_ =
      Double.fin 6535836193916366 := by decide
  rw [h]
  simp only [Double.toRat, Double.unit, ne_eq, Option.some.injEq]
  norm_num

/-! ## C18 -/

/-- C18: for every sequencer pitch-bend event with native value `p` in
`-8192..8191`, `inputLoop` makes exactly the one facade call
`pitchBend(ch, p + 8192)`; the value lies in `0..16383`, the native centre 0
goes to 8192, the conversion is strictly increasing, and every value of
`0..16383` comes from exactly one `p` of `-8192..8191`. -/
theorem C18_pitch_bend_conversion (ev : snd_seq_event_t) (p : Int)
    (htype : ev.type = .SND_SEQ_EVENT_PITCHBEND) (hval : ev.data.control.value = p)
    (hlo : -8192 ≤ p) (hhi : p ≤ 8191) :
    AlsaInput.inputLoop [SeqInput.event ev] =
        [FacadeCall.pitchBend ev.data.control.channel (p + 8192)] ∧
      AlsaInput.handleEvent ev = [FacadeCall.pitchBend ev.data.control.channel (p + 8192)] ∧
      0 ≤ p + 8192 ∧ p + 8192 ≤ 16383 ∧
      (p = 0 → p + 8192 = 8192) ∧
      (∀ ev' : snd_seq_event_t, ev'.type = .SND_SEQ_EVENT_PITCHBEND →
        ev'.data.control.channel = ev.data.control.channel →
        (p < ev'.data.control.value →
          ∃ w w' : Int, AlsaInput.handleEvent ev = [FacadeCall.pitchBend ev.data.control.channel w] ∧
            AlsaInput.handleEvent ev' = [FacadeCall.pitchBend ev.data.control.channel w'] ∧
            w < w') ∧
        (AlsaInput.handleEvent ev' = AlsaInput.handleEvent ev → ev'.data.control.value = p)) ∧
      (∀ w : Int, 0 ≤ w → w ≤ 16383 →
        ∃ q : Int, -8192 ≤ q ∧ q ≤ 8191 ∧ q + 8192 = w ∧
          ∀ q' : Int, q' + 8192 = w → q' = q) := by
  have hh : AlsaInput.handleEvent ev =
      [FacadeCall.pitchBend ev.data.control.channel (p + 8192)] := by
    simp [AlsaInput.handleEvent, htype, hval]
  refine ⟨?_, hh, by omega, by omega, by intro h; omega, ?_, ?_⟩
  · simp [AlsaInput.inputLoop, hh]
  · intro ev' ht' hc'
    have hh' : AlsaInput.handleEvent ev' =
        [FacadeCall.pitchBend ev.data.control.channel (ev'.data.control.value + 8192)] := by
      simp [AlsaInput.handleEvent, ht', hc']
    refine ⟨?_, ?_⟩
    · intro hlt
      exact ⟨_, _, hh, hh', by omega⟩
    · intro heq
      rw [hh, hh'] at heq
      simp only [List.cons.injEq, FacadeCall.pitchBend.injEq, true_and, and_true] at heq
      omega
  · intro w h0 h1
    exact ⟨w - 8192, by omega, by omega, by omega, fun q' hq => by omega⟩

/-- C18 witness: the centre value 0 on channel 3. -/
theorem C18_pitch_bend_conversion_witness :
    AlsaInput.inputLoop [SeqInput.event
        { type := .SND_SEQ_EVENT_PITCHBEND,
          data := { note := ⟨0, 0, 0⟩, control := ⟨3, 0, 0⟩ } }] =
      [FacadeCall.pitchBend 3 8192] :=
  (C18_pitch_bend_conversion
    { type := .SND_SEQ_EVENT_PITCHBEND, data := { note := ⟨0, 0, 0⟩, control := ⟨3, 0, 0⟩ } }
    0 rfl rfl (by decide) (by decide)).1

/-! ## C19 -/

/-- The shift `v >> 7` on `int` is the floor of `v / 128`. -/
theorem int_shiftRight_seven (v : Int) : v >>> 7 = v / 128 := by
  have h7 : (7 : Int) = ((7 : Nat) : Int) := rfl
  rw [h7]
  cases v with
  | ofNat m =>
    rw [Int.ofNat_eq_coe, Int.shiftRight_coe_nat, Nat.shiftRight_eq_div_pow]
    norm_num
  | negSucc m =>
    rw [Int.shiftRight_negSucc, Nat.shiftRight_eq_div_pow]
    simp only [Int.negSucc_eq]
    have : ((m / 2 ^ 7 : Nat) : Int) = (m : Int) / 128 := by norm_num
    rw [this]
    omega

/-- C19: in `inputLoop` a `CONTROL14` event with value `v` makes the one call
`controlChange(ch, param, v >> 7)`, whose value lies in `0..127` for every
`v` in `0..16383`; a `CONTROLLER` event with value `v` makes the one call
`controlChange(ch, param, v)`; and an event of any kind other than note on,
note off, controller, 14-bit controller, program change and pitch bend makes no
facade call. -/
theorem C19_controller_forwarding (ev : snd_seq_event_t) :
    (ev.type = .SND_SEQ_EVENT_CONTROL14 →
        AlsaInput.inputLoop [SeqInput.event ev] =
          [FacadeCall.controlChange ev.data.control.channel ev.data.control.param
            (ev.data.control.value >>> 7)] ∧
        ev.data.control.value >>> 7 = ev.data.control.value / 128 ∧
        (0 ≤ ev.data.control.value → ev.data.control.value ≤ 16383 →
          0 ≤ ev.data.control.value >>> 7 ∧ ev.data.control.value >>> 7 ≤ 127)) ∧
      (ev.type = .SND_SEQ_EVENT_CONTROLLER →
        AlsaInput.inputLoop [SeqInput.event ev] =
          [FacadeCall.controlChange ev.data.control.channel ev.data.control.param
            ev.data.control.value]) ∧
      (ev.type ≠ .SND_SEQ_EVENT_NOTEON → ev.type ≠ .SND_SEQ_EVENT_NOTEOFF →
        ev.type ≠ .SND_SEQ_EVENT_CONTROLLER → ev.type ≠ .SND_SEQ_EVENT_CONTROL14 →
        ev.type ≠ .SND_SEQ_EVENT_PGMCHANGE → ev.type ≠ .SND_SEQ_EVENT_PITCHBEND →
        AlsaInput.inputLoop [SeqInput.event ev] = [] ∧
          ∀ (before after : List SeqInput),
            AlsaInput.inputLoop (before ++ SeqInput.event ev :: after) =
              AlsaInput.inputLoop (before ++ after)) := by
  have hshift : ev.data.control.value >>> 7 = ev.data.control.value / 128 :=
    int_shiftRight_seven _
  refine ⟨?_, ?_, ?_⟩
  · intro ht
    refine ⟨by simp [AlsaInput.inputLoop, AlsaInput.handleEvent, ht], hshift, ?_⟩
    intro h0 h1
    rw [hshift]
    omega
  · intro ht
    simp [AlsaInput.inputLoop, AlsaInput.handleEvent, ht]
  · intro h1 h2 h3 h4 h5 h6
    have hh : AlsaInput.handleEvent ev = [] := by
      unfold AlsaInput.handleEvent
      cases ht : ev.type <;> simp_all
    refine ⟨by simp [AlsaInput.inputLoop, hh], ?_⟩
    intro before after
    induction before with
    | nil => simp [AlsaInput.inputLoop, hh]
    | cons b bs ih =>
      cases b with
      | error err =>
        simp only [List.cons_append, AlsaInput.inputLoop]
        split_ifs
        · exact ih
        · rfl
      | null => simpa [AlsaInput.inputLoop] using ih
      | event e => simp [AlsaInput.inputLoop, ih]

/-! ## C20 -/

theorem MidiPlayer.reachable_step (s : MidiPlayer) (op : MidiPlayer.Op) (h : s.Reachable) :
    (s.step op).1.Reachable := by
  cases op with
  | load loaded => exact MidiPlayer.Reachable.load loaded h
  | play => exact MidiPlayer.Reachable.play h
  | stop => exact MidiPlayer.Reachable.stop h
  | reset => exact MidiPlayer.Reachable.reset h
  | process samples => exact MidiPlayer.Reachable.process samples h

theorem MidiPlayer.reachable_run (ops : List MidiPlayer.Op) :
    ∀ s : MidiPlayer, s.Reachable → (s.run ops).Reachable := by
  induction ops with
  | nil => intro s h; exact h
  | cons op ops ih =>
    intro s h
    exact ih _ (MidiPlayer.reachable_step s op h)

/-- C20 fails on the code: after `load` of the scenario sequence, `play()` and a
`load` that fails, the player is reachable, `isPlaying()` is still true, no
sequence is loaded, and the cursor still points into the sequence that was
discarded. -/
theorem C20_failed_load_keeps_playing :
    (MidiPlayer.init.run [.load scenario, .play, .load []]).Reachable ∧
      ((MidiPlayer.init.run [.load scenario, .play]).load []).2 = false ∧
      (MidiPlayer.init.run [.load scenario, .play, .load []]).isPlaying = true ∧
      (MidiPlayer.init.run [.load scenario, .play, .load []]).isFinished = false ∧
      (MidiPlayer.init.run [.load scenario, .play, .load []]).midi_ = [] ∧
      (MidiPlayer.init.run [.load scenario, .play, .load []]).current_ = scenario ∧
      ¬((MidiPlayer.init.run [.load scenario, .play, .load []]).current_ <:+
        (MidiPlayer.init.run [.load scenario, .play, .load []]).midi_) :=
  ⟨MidiPlayer.reachable_run _ _ MidiPlayer.Reachable.init, by decide, by decide, by decide,
    by decide, by decide, by decide⟩

/-! ## C21 -/

theorem takeWhile_append_stop (p : Char → Bool) (xs : List Char) (c : Char) (t : List Char)
    (hc : p c = false) : (xs ++ c :: t).takeWhile p = xs.takeWhile p := by
  induction xs with
  | nil => simp [List.takeWhile, hc]
  | cons x xs ih =>
    rw [List.cons_append]
    cases hx : p x
    · rw [List.takeWhile_cons_of_neg (by simp [hx]), List.takeWhile_cons_of_neg (by simp [hx])]
    · rw [List.takeWhile_cons_of_pos hx, List.takeWhile_cons_of_pos hx, ih]

theorem dropWhile_append_stop (p : Char → Bool) (xs : List Char) (c : Char) (t : List Char)
    (hc : p c = false) : (xs ++ c :: t).dropWhile p = xs.dropWhile p ++ c :: t := by
  induction xs with
  | nil => simp [List.dropWhile, hc]
  | cons x xs ih =>
    rw [List.cons_append]
    cases hx : p x
    · rw [List.dropWhile_cons_of_neg (by simp [hx]), List.dropWhile_cons_of_neg (by simp [hx]),
        List.cons_append]
    · rw [List.dropWhile_cons_of_pos hx, List.dropWhile_cons_of_pos hx, ih]

theorem dropWhile_append_of_ne_nil (p : Char → Bool) (xs ys : List Char)
    (h : xs.dropWhile p ≠ []) : (xs ++ ys).dropWhile p = xs.dropWhile p ++ ys := by
  induction xs with
  | nil => exact absurd rfl h
  | cons x xs ih =>
    rw [List.cons_append]
    cases hx : p x
    · rw [List.dropWhile_cons_of_neg (by simp [hx]), List.dropWhile_cons_of_neg (by simp [hx]),
        List.cons_append]
    · rw [List.dropWhile_cons_of_pos hx] at h
      rw [List.dropWhile_cons_of_pos hx, List.dropWhile_cons_of_pos hx, ih h]

/-- An integer that `iss >> value` reads is read unchanged when a blank and
further characters follow the input; they stay unread. -/
theorem extractInt_append (iss t : List Char) (v : Int) (r : List Char)
    (h : extractInt iss = some (v, r)) :
    extractInt (iss ++ ' ' :: t) = some (v, r ++ ' ' :: t) := by
  have hsp : Char.isDigit ' ' = false := by decide
  unfold extractInt at h ⊢
  simp only at h ⊢
  have hs0 : iss.dropWhile isspace ≠ [] := by
    intro h0
    rw [h0] at h
    simp at h
  obtain ⟨c, s0, hc⟩ := List.exists_cons_of_ne_nil hs0
  rw [dropWhile_append_of_ne_nil isspace iss _ hs0]
  rw [hc] at h ⊢
  simp only [List.cons_append, List.head?_cons, List.tail_cons] at h ⊢
  by_cases hsign : some c = some '-' ∨ some c = some '+'
  · rw [if_pos hsign] at h ⊢
    rw [takeWhile_append_stop _ _ _ _ hsp, dropWhile_append_stop _ _ _ _ hsp]
    split_ifs at h ⊢ with h1 h2
    all_goals
      simp only [Option.some.injEq, Prod.mk.injEq] at h ⊢
      exact ⟨h.1, by rw [h.2]⟩
  · rw [if_neg hsign] at h ⊢
    rw [← List.cons_append, takeWhile_append_stop _ _ _ _ hsp,
      dropWhile_append_stop _ _ _ _ hsp]
    split_ifs at h ⊢ with h1 h2
    all_goals
      simp only [Option.some.injEq, Prod.mk.injEq] at h ⊢
      exact ⟨h.1, by rw [h.2]⟩

theorem readInts_append (n : Nat) :
    ∀ (iss t : List Char) (args : List Int) (r : List Char),
      readInts n iss = some (args, r) →
      readInts n (iss ++ ' ' :: t) = some (args, r ++ ' ' :: t) := by
  induction n with
  | zero =>
    intro iss t args r h
    simp only [readInts, Option.some.injEq, Prod.mk.injEq] at h ⊢
    exact ⟨h.1, by rw [h.2]⟩
  | succ k ih =>
    intro iss t args r h
    rw [readInts] at h ⊢
    cases h1 : extractInt iss with
    | none => rw [h1] at h; simp at h
    | some p =>
      obtain ⟨a, r1⟩ := p
      rw [h1] at h
      rw [extractInt_append iss t a r1 h1]
      simp only at h ⊢
      cases h2 : readInts k r1 with
      | none => rw [h2] at h; simp at h
      | some q =>
        obtain ⟨as, r2⟩ := q
        rw [h2] at h
        rw [ih r1 t as r2 h2]
        simp only [Option.some.injEq, Prod.mk.injEq] at h ⊢
        exact ⟨h.1, by rw [h.2]⟩

theorem readInts_length (n : Nat) :
    ∀ (iss : List Char) (args : List Int) (r : List Char),
      readInts n iss = some (args, r) → args.length = n := by
  induction n with
  | zero =>
    intro iss args r h
    simp only [readInts, Option.some.injEq, Prod.mk.injEq] at h
    rw [← h.1]; rfl
  | succ k ih =>
    intro iss args r h
    rw [readInts] at h
    cases h1 : extractInt iss with
    | none => rw [h1] at h; simp at h
    | some p =>
      obtain ⟨a, r1⟩ := p
      rw [h1] at h
      simp only at h
      cases h2 : readInts k r1 with
      | none => rw [h2] at h; simp at h
      | some q =>
        obtain ⟨as, r2⟩ := q
        rw [h2] at h
        simp only [Option.some.injEq, Prod.mk.injEq] at h
        rw [← h.1, List.length_cons, ih r1 as r2 h2]

/-- Two well-formed arguments: `iss >> a >> b` succeeds, also with a blank and
further characters after them, and with the same values. -/
theorem extractInt2_append (iss t : List Char) (h : WellFormedArguments 2 iss) :
    ∃ a b, extractInt2 iss = some (a, b) ∧ extractInt2 (iss ++ ' ' :: t) = some (a, b) := by
  obtain ⟨args, r, hr⟩ := h
  have hl := readInts_length 2 iss args r hr
  match args, hl with
  | [a, b], _ =>
    refine ⟨a, b, ?_, ?_⟩
    · rw [extractInt2_eq_readInts, hr]
    · rw [extractInt2_eq_readInts, readInts_append 2 iss t _ r hr]

/-- Three well-formed arguments: `iss >> a >> b >> c` succeeds, also with a blank
and further characters after them, and with the same values. -/
theorem extractInt3_append (iss t : List Char) (h : WellFormedArguments 3 iss) :
    ∃ a b c, extractInt3 iss = some (a, b, c) ∧
      extractInt3 (iss ++ ' ' :: t) = some (a, b, c) := by
  obtain ⟨args, r, hr⟩ := h
  have hl := readInts_length 3 iss args r hr
  match args, hl with
  | [a, b, c], _ =>
    refine ⟨a, b, c, ?_, ?_⟩
    · rw [extractInt3_eq_readInts, hr]
    · rw [extractInt3_eq_readInts, readInts_append 3 iss t _ r hr]

/-- The first token of a line stays its first token when a blank and further
characters are appended; they are appended to the unread rest. -/
theorem startsWithVerb_append (line verb rest t : List Char)
    (h : StartsWithVerb line verb rest) :
    StartsWithVerb (line ++ ' ' :: t) verb (rest ++ ' ' :: t) := by
  obtain ⟨pre, rfl, hpre, hne, hverb, hrest⟩ := h
  refine ⟨pre, by simp, hpre, hne, hverb, ?_⟩
  intro c hc
  cases rest with
  | nil =>
    simp at hc
    rw [← hc]; decide
  | cons x xs =>
    simp at hc
    exact hrest c (by simp [hc])

theorem data_append_blank (line s : String) :
    (line ++ " " ++ s).data = line.data ++ ' ' :: s.data := by
  simp [String.data_append]

/-- The integer arguments of a well-formed line as written with `decimal`
(two arguments) can be read. -/
theorem wellFormedArguments_decimal2 (a b : Int) (ha : INT_MIN ≤ a ∧ a ≤ INT_MAX)
    (hb : INT_MIN ≤ b ∧ b ≤ INT_MAX) :
    WellFormedArguments 2 (' ' :: ((decimal a).data ++ ' ' :: ((decimal b).data ++ []))) := by
  refine ⟨[a, b], [], ?_⟩
  simp only [readInts]
  rw [extractInt_decimal a ha _ (by intro c hc; simp at hc; rw [← hc]; decide)]
  simp only
  rw [extractInt_decimal b hb _ noDigitAhead_nil]

/-- The integer arguments of a well-formed line as written with `decimal`
(three arguments) can be read. -/
theorem wellFormedArguments_decimal3 (a b c : Int) (ha : INT_MIN ≤ a ∧ a ≤ INT_MAX)
    (hb : INT_MIN ≤ b ∧ b ≤ INT_MAX) (hc : INT_MIN ≤ c ∧ c ≤ INT_MAX) :
    WellFormedArguments 3 (' ' :: ((decimal a).data ++ ' ' :: ((decimal b).data ++
      ' ' :: ((decimal c).data ++ [])))) := by
  refine ⟨[a, b, c], [], ?_⟩
  simp only [readInts]
  rw [extractInt_decimal a ha _ (by intro c hc; simp at hc; rw [← hc]; decide)]
  simp only
  rw [extractInt_decimal b hb _ (by intro c hc; simp at hc; rw [← hc]; decide)]
  simp only
  rw [extractInt_decimal c hc _ noDigitAhead_nil]

/-- C21: for every line whose first token is `noteon`, `noteoff`, `cc`, `pc` or
`pitch` and after which the integers the verb requires can be read, or whose
first token is `quit`, `exit` or `panic`, and for every string `s` of extra
tokens, `processCommand (line + " " + s)` does exactly what `processCommand line`
does (same return value, same facade calls, same output); nothing is printed;
`quit` and `exit` return false with no facade call, every other such line
returns true with exactly one facade call. -/
theorem C21_extra_tokens_ignored (line s : String) (rest : List Char)
    (h : (StartsWithVerb line.data "noteon".data rest ∧ WellFormedArguments 3 rest) ∨
      (StartsWithVerb line.data "noteoff".data rest ∧ WellFormedArguments 2 rest) ∨
      (StartsWithVerb line.data "cc".data rest ∧ WellFormedArguments 3 rest) ∨
      (StartsWithVerb line.data "pc".data rest ∧ WellFormedArguments 2 rest) ∨
      (StartsWithVerb line.data "pitch".data rest ∧ WellFormedArguments 2 rest) ∨
      StartsWithVerb line.data "quit".data rest ∨ StartsWithVerb line.data "exit".data rest ∨
      StartsWithVerb line.data "panic".data rest) :
    processCommand (line ++ " " ++ s) = processCommand line ∧
      (processCommand line).stderr = "" ∧
      ((StartsWithVerb line.data "quit".data rest ∨ StartsWithVerb line.data "exit".data rest) →
        (processCommand line).result = false ∧ (processCommand line).calls = []) ∧
      (¬(StartsWithVerb line.data "quit".data rest ∨ StartsWithVerb line.data "exit".data rest) →
        (processCommand line).result = true ∧ ∃ call, (processCommand line).calls = [call]) := by
  have happ : ∀ verb : List Char, StartsWithVerb line.data verb rest →
      StartsWithVerb (line ++ " " ++ s).data verb (rest ++ ' ' :: s.data) := by
    intro verb hv
    rw [data_append_blank]
    exact startsWithVerb_append _ _ _ _ hv
  have hnq : ∀ verb : List Char, verb ≠ "quit".data → verb ≠ "exit".data →
      StartsWithVerb line.data verb rest →
      ¬(StartsWithVerb line.data "quit".data rest ∨ StartsWithVerb line.data "exit".data rest) := by
    intro verb h1 h2 hv hq
    rcases hq with hq | hq
    · exact h1 (firstToken_unique _ _ _ ⟨rest, hv⟩ ⟨rest, hq⟩)
    · exact h2 (firstToken_unique _ _ _ ⟨rest, hv⟩ ⟨rest, hq⟩)
  rcases h with ⟨hv, ha⟩ | ⟨hv, ha⟩ | ⟨hv, ha⟩ | ⟨hv, ha⟩ | ⟨hv, ha⟩ | hv | hv | hv
  · obtain ⟨a, b, c, e1, e2⟩ := extractInt3_append rest s.data ha
    rw [processCommand_noteon _ _ (happ _ hv), processCommand_noteon _ _ hv, e1, e2]
    exact ⟨rfl, rfl, fun hq => absurd hq (hnq _ (by decide) (by decide) hv),
      fun _ => ⟨rfl, _, rfl⟩⟩
  · obtain ⟨a, b, e1, e2⟩ := extractInt2_append rest s.data ha
    rw [processCommand_noteoff _ _ (happ _ hv), processCommand_noteoff _ _ hv, e1, e2]
    exact ⟨rfl, rfl, fun hq => absurd hq (hnq _ (by decide) (by decide) hv),
      fun _ => ⟨rfl, _, rfl⟩⟩
  · obtain ⟨a, b, c, e1, e2⟩ := extractInt3_append rest s.data ha
    rw [processCommand_cc _ _ (happ _ hv), processCommand_cc _ _ hv, e1, e2]
    exact ⟨rfl, rfl, fun hq => absurd hq (hnq _ (by decide) (by decide) hv),
      fun _ => ⟨rfl, _, rfl⟩⟩
  · obtain ⟨a, b, e1, e2⟩ := extractInt2_append rest s.data ha
    rw [processCommand_pc _ _ (happ _ hv), processCommand_pc _ _ hv, e1, e2]
    exact ⟨rfl, rfl, fun hq => absurd hq (hnq _ (by decide) (by decide) hv),
      fun _ => ⟨rfl, _, rfl⟩⟩
  · obtain ⟨a, b, e1, e2⟩ := extractInt2_append rest s.data ha
    rw [processCommand_pitch _ _ (happ _ hv), processCommand_pitch _ _ hv, e1, e2]
    exact ⟨rfl, rfl, fun hq => absurd hq (hnq _ (by decide) (by decide) hv),
      fun _ => ⟨rfl, _, rfl⟩⟩
  · rw [processCommand_quit _ _ (Or.inl (happ _ hv)), processCommand_quit _ _ (Or.inl hv)]
    exact ⟨rfl, rfl, fun _ => ⟨rfl, rfl⟩, fun hq => absurd (Or.inl hv) hq⟩
  · rw [processCommand_quit _ _ (Or.inr (happ _ hv)), processCommand_quit _ _ (Or.inr hv)]
    exact ⟨rfl, rfl, fun _ => ⟨rfl, rfl⟩, fun hq => absurd (Or.inr hv) hq⟩
  · rw [processCommand_panic _ _ (happ _ hv), processCommand_panic _ _ hv]
    exact ⟨rfl, rfl, fun hq => absurd hq (hnq _ (by decide) (by decide) hv),
      fun _ => ⟨rfl, _, rfl⟩⟩

/-- C21 witness: the line `noteon 0 60 100` followed by the extra tokens
`and 7 more tokens` makes the one call `noteOn(0, 60, 100 / 127.0f)`. -/
theorem C21_extra_tokens_ignored_witness :
    (StartsWithVerb "noteon 0 60 100".data "noteon".data " 0 60 100".data ∧
        WellFormedArguments 3 " 0 60 100".data) ∧
      processCommand ("noteon 0 60 100" ++ " " ++ "and 7 more tokens") =
        processCommand "noteon 0 60 100" ∧
      "noteon 0 60 100" ++ " " ++ "and 7 more tokens" = "noteon 0 60 100 and 7 more tokens" ∧
      processCommand "noteon 0 60 100 and 7 more tokens" =
        { result := true, calls := [FacadeCall.noteOn 0 60 (F32.divBy127 100)], stderr := "" } :=
  ⟨⟨startsWithVerb_blank "noteon".data "0 60 100".data (by decide) (by decide),
      ⟨[0, 60, 100], [], by decide⟩⟩,
    (C21_extra_tokens_ignored "noteon 0 60 100" "and 7 more tokens" " 0 60 100".data
      (Or.inl ⟨startsWithVerb_blank "noteon".data "0 60 100".data (by decide) (by decide),
        ⟨[0, 60, 100], [], by decide⟩⟩)).1,
    by decide, by decide⟩

end TermuxMidi
